import Mathlib

/-!
A verification development for the integration-tester repository.

The definitions below are a shallow embedding of the Go sources:

* `pkg/result` — severities and check results (`Severity`, `Result`).
* `pkg/driver/rules.go` — assertion-rule matching (`rules`,
  `matchRuleByName`, `severityForRuleName`, `findAssertionRules`).
* `pkg/driver/rego.go` — result extraction (`extractResult`,
  `extractOneResult`) over dynamically typed Rego values.
* `pkg/test/tapwriter.go` — the policy check convergence loop
  (`runCheck`), modelled over an explicit trace of clock readings and
  evaluation outcomes.
* `pkg/driver/objects.go` — the object pool (`Adopt`,
  `updateAdoptedObject`, informer events, `Apply`, `DeleteAll`),
  modelled with explicit state passing; the Kubernetes API server and
  the informer machinery are oracles supplied as inputs.
* `pkg/filter/filter.go`, `pkg/fixture/fixture.go`,
  `pkg/utils/kubernetes.go` — YAML metadata injection and fixture
  renaming over an explicit YAML node tree.

Machine integers do not overflow in any of the modelled code paths
(`generation` is an int64 used only for comparisons), so integers are
modelled as `Int`.
-/

namespace IntegrationTester

/-- Severity of a check result, from `pkg/result` (`Severity` string
constants `None`, `Error`, `Fatal`, `Skip`). The `Pass` constant is
referenced by `extractOneResult` but its declaration is not in the
sources provided; it is modelled from the spec, which lists the result
severities as None, Skip, Error, Fatal and Pass. -/
inductive Severity where
  | None
  | Error
  | Fatal
  | Skip
  | Pass
  deriving DecidableEq, Repr

/-- A check result, from `pkg/result` (`Result`). The `Timestamp`
field is omitted: no modelled code path inspects it. -/
structure Result where
  severity : Severity
  message : String
  deriving DecidableEq, Repr

/-- `result.Contains`: true iff some element has the wanted severity. -/
def Result.containsSeverity (results : List Result) (wanted : Severity) : Bool :=
  results.any fun r => r.severity = wanted

/-- `utils.JoinLines`: join strings with a newline
(`strings.Join(lines, "\n")`, and the empty string for no lines). -/
def joinLines : List String → String
  | [] => ""
  | [x] => x
  | x :: rest => x ++ "\n" ++ joinLines rest

/-! ## The policy check convergence loop (`runCheck`, pkg/test/tapwriter.go)

`runCheck` repeatedly calls `Eval` until the result list is empty, a
skip appears, the evaluator errors, or the timeout elapses.  The loop
is modelled over a trace: one `CheckStep` per loop iteration, carrying
the value of `time.Since(startTime)` observed by the loop condition
(in nanoseconds) and the outcome `Eval` would produce if called on
that iteration.  A trace too short to decide the call yields `none`. -/

/-- Outcome of one `Eval` call as seen by `runCheck`. -/
inductive EvalOutcome where
  | evalErr
  | ok (results : List Result)
  deriving DecidableEq, Repr

/-- One iteration of the `runCheck` loop: the elapsed-time reading
taken by the loop condition, and the evaluation outcome for the body. -/
structure CheckStep where
  elapsed : Int
  outcome : EvalOutcome
  deriving DecidableEq, Repr

/-- What `runCheck` returns: either a non-nil Go error (from `Eval`),
or a result list with a nil error.  Go reports a nil slice and the
empty slice identically here, so both are `results []`. -/
inductive CheckOutcome where
  | failed
  | results (rs : List Result)
  deriving DecidableEq, Repr

/-- The loop of `runCheck` from pkg/test/tapwriter.go, with `last`
the value of the `results` variable on entry to the loop iteration and
the returned `Nat` counting how many times `Eval` was invoked. -/
def runCheckFrom (timeout : Int) :
    List CheckStep → List Result → Nat → Option (CheckOutcome × Nat)
  | [], _, _ => none
  | s :: rest, last, n =>
    if s.elapsed < timeout then
      match s.outcome with
      | .evalErr => some (.failed, n + 1)
      | .ok rs =>
        if rs.isEmpty then some (.results [], n + 1)
        else if Result.containsSeverity rs .Skip then some (.results rs, n + 1)
        else runCheckFrom timeout rest rs (n + 1)
    else some (.results last, n)

/-- `runCheck` as called: `results` starts as the nil slice and no
evaluation has happened yet. -/
def runCheck (timeout : Int) (trace : List CheckStep) : Option (CheckOutcome × Nat) :=
  runCheckFrom timeout trace [] 0

/-- The check loop as the claim words it: re-evaluate until
`now - start` strictly exceeds the timeout (the source instead stops
as soon as `now - start` reaches the timeout). -/
def runCheckClaimFrom (timeout : Int) :
    List CheckStep → List Result → Nat → Option (CheckOutcome × Nat)
  | [], _, _ => none
  | s :: rest, last, n =>
    if s.elapsed ≤ timeout then
      match s.outcome with
      | .evalErr => some (.failed, n + 1)
      | .ok rs =>
        if rs.isEmpty then some (.results [], n + 1)
        else if Result.containsSeverity rs .Skip then some (.results rs, n + 1)
        else runCheckClaimFrom timeout rest rs (n + 1)
    else some (.results last, n)

/-- The claim-worded check loop at the top-level call. -/
def runCheckClaim (timeout : Int) (trace : List CheckStep) : Option (CheckOutcome × Nat) :=
  runCheckClaimFrom timeout trace [] 0

theorem runCheckFrom_results_source (timeout : Int) :
    ∀ (trace : List CheckStep) (last rs : List Result) (n k : Nat),
      runCheckFrom timeout trace last n = some (.results rs, k) →
      rs = [] ∨ rs = last ∨ ∃ s ∈ trace, s.outcome = EvalOutcome.ok rs := by
  intro trace
  induction trace with
  | nil => intro last rs n k h; simp [runCheckFrom] at h
  | cons s rest ih =>
    intro last rs n k h
    simp only [runCheckFrom] at h
    by_cases hel : s.elapsed < timeout
    · simp only [hel, if_true] at h
      cases hout : s.outcome with
      | evalErr => rw [hout] at h; simp at h
      | ok res =>
        rw [hout] at h
        by_cases hemp : res.isEmpty
        · simp [hemp] at h
          exact Or.inl h.1
        · simp only [hemp, if_false, Bool.false_eq_true] at h
          by_cases hskip : Result.containsSeverity res .Skip
          · simp [hskip] at h
            refine Or.inr (Or.inr ⟨s, List.mem_cons_self .., ?_⟩)
            rw [hout, h.1]
          · simp only [hskip, if_false, Bool.false_eq_true] at h
            rcases ih res rs (n + 1) k h with h1 | h1 | ⟨t, ht, hto⟩
            · exact Or.inl h1
            · exact Or.inr (Or.inr ⟨s, List.mem_cons_self .., by rw [hout, h1]⟩)
            · exact Or.inr (Or.inr ⟨t, List.mem_cons_of_mem _ ht, hto⟩)
    · simp [hel] at h
      exact Or.inr (Or.inl h.1.symm)

/-- C1 (amended): in the policy check loop, an in-time evaluation with
an empty result list returns the empty list at once; an in-time
evaluation whose results contain a Skip returns that evaluation's
results immediately; the loop stops returning the last result list as
soon as `now - start` reaches or exceeds the timeout (not only when it
strictly exceeds it); and any returned result list is empty or comes
from a single evaluation in the trace — results of distinct
evaluations are never merged. -/
theorem runCheck_convergence_loop (timeout : Int) :
    (∀ (s : CheckStep) (rest : List CheckStep) (last : List Result) (n : Nat),
        s.elapsed < timeout → s.outcome = EvalOutcome.ok [] →
        runCheckFrom timeout (s :: rest) last n = some (.results [], n + 1))
    ∧ (∀ (s : CheckStep) (rest : List CheckStep) (last rs : List Result) (n : Nat),
        s.elapsed < timeout → s.outcome = EvalOutcome.ok rs →
        Result.containsSeverity rs .Skip = true →
        runCheckFrom timeout (s :: rest) last n = some (.results rs, n + 1))
    ∧ (∀ (s : CheckStep) (rest : List CheckStep) (last : List Result) (n : Nat),
        timeout ≤ s.elapsed →
        runCheckFrom timeout (s :: rest) last n = some (.results last, n))
    ∧ (∀ (trace : List CheckStep) (rs : List Result) (k : Nat),
        runCheck timeout trace = some (.results rs, k) →
        rs = [] ∨ ∃ s ∈ trace, s.outcome = EvalOutcome.ok rs) := by
  refine ⟨?_, ?_, ?_, ?_⟩
  · intro s rest last n hel hout
    simp [runCheckFrom, hel, hout]
  · intro s rest last rs n hel hout hskip
    have hne : rs ≠ [] := by
      intro hrs
      rw [hrs] at hskip
      simp [Result.containsSeverity] at hskip
    simp [runCheckFrom, hel, hout, List.isEmpty_iff, hne, hskip]
  · intro s rest last n hel
    simp [runCheckFrom, not_lt.mpr hel]
  · intro trace rs k h
    rcases runCheckFrom_results_source timeout trace [] rs 0 k h with h1 | h1 | h1
    · exact Or.inl h1
    · exact Or.inl h1
    · exact Or.inr h1

/-- Witness for `runCheck_convergence_loop` at concrete traces. -/
theorem runCheck_convergence_loop_witness :
    runCheckFrom 10 [⟨0, .ok []⟩] [⟨.Error, "x"⟩] 0 = some (.results [], 1)
    ∧ runCheckFrom 10 [⟨0, .ok [⟨.Skip, "s"⟩]⟩] [] 0
        = some (.results [⟨.Skip, "s"⟩], 1)
    ∧ runCheckFrom 10 [⟨10, .ok []⟩] [⟨.Error, "x"⟩] 3
        = some (.results [⟨.Error, "x"⟩], 3)
    ∧ ([(⟨.Skip, "s"⟩ : Result)] = []
        ∨ ∃ s ∈ [(⟨0, .ok [⟨.Skip, "s"⟩]⟩ : CheckStep)],
            s.outcome = EvalOutcome.ok [⟨.Skip, "s"⟩]) := by
  obtain ⟨h1, h2, h3, h4⟩ := runCheck_convergence_loop 10
  exact ⟨h1 _ _ _ _ (by decide) rfl,
    h2 _ _ _ _ _ (by decide) rfl (by decide),
    h3 _ _ _ _ (by decide),
    h4 [⟨0, .ok [⟨.Skip, "s"⟩]⟩] [⟨.Skip, "s"⟩] 1 (by decide)⟩

/-- C1 (counterexample): the source loop stops as soon as
`now - start` equals the timeout, whereas the claim has it re-evaluate
then.  On a trace whose second clock reading equals the timeout and
whose second evaluation would return no results, the source returns
the first (failing) result list while the claimed loop would return
the empty (passing) list. -/
theorem runCheck_timeout_boundary_counterexample :
    runCheck 5 [⟨0, .ok [⟨.Error, "x"⟩]⟩, ⟨5, .ok []⟩]
        = some (.results [⟨.Error, "x"⟩], 1)
    ∧ runCheckClaim 5 [⟨0, .ok [⟨.Error, "x"⟩]⟩, ⟨5, .ok []⟩]
        = some (.results [], 2)
    ∧ runCheck 5 [⟨0, .ok [⟨.Error, "x"⟩]⟩, ⟨5, .ok []⟩]
        ≠ runCheckClaim 5 [⟨0, .ok [⟨.Error, "x"⟩]⟩, ⟨5, .ok []⟩] := by
  refine ⟨by decide, by decide, by decide⟩

/-- C9: with a non-positive timeout the loop condition
`time.Since(startTime) < timeout` is false on entry (elapsed time is
non-negative), so `runCheck` returns the nil result list and a nil
error without invoking `Eval` even once — such a check is reported as
passing without any evaluation. -/
theorem runCheck_nonpositive_timeout (timeout : Int) (s : CheckStep)
    (rest : List CheckStep) (htimeout : timeout ≤ 0) (helapsed : 0 ≤ s.elapsed) :
    runCheck timeout (s :: rest) = some (.results [], 0) := by
  have : ¬ s.elapsed < timeout := not_lt.mpr (le_trans htimeout helapsed)
  simp [runCheck, runCheckFrom, this]

/-- Witness for `runCheck_nonpositive_timeout`. -/
theorem runCheck_nonpositive_timeout_witness :
    runCheck 0 [⟨0, .ok [⟨.Error, "boom"⟩]⟩] = some (.results [], 0) :=
  runCheck_nonpositive_timeout 0 ⟨0, .ok [⟨.Error, "boom"⟩]⟩ []
    (by decide) (by decide)

/-! ## The object pool (`objectDriver`, pkg/driver/objects.go)

The pool maps a cluster-assigned UID to the latest adopted version of
an object.  The Go `map[types.UID]*unstructured.Unstructured` is
modelled as an association list whose keys play the role of the map
keys; map insertion appends, map update replaces in place. -/

/-- The metadata of an unstructured object that the object driver
reads: UID, generation, and the (name, namespace, kind) triple used by
`Delete` to scan the pool. -/
structure KObject where
  uid : String
  generation : Int
  name : String
  nspace : String
  kind : String
  deriving DecidableEq, Repr

/-- The object pool: UID-keyed association list. -/
abbrev Pool := List (String × KObject)

/-- Go map read `o.objectPool[uid]`. -/
def Pool.lookupUID : Pool → String → Option KObject
  | [], _ => none
  | (k, v) :: rest, uid => if k = uid then some v else Pool.lookupUID rest uid

/-- Go map write to an existing key: replace the entry in place. -/
def Pool.replaceUID : Pool → String → KObject → Pool
  | [], _, _ => []
  | (k, v) :: rest, uid, o =>
    if k = uid then (k, o) :: rest else (k, v) :: Pool.replaceUID rest uid o

/-- Go `delete(o.objectPool, uid)`. -/
def Pool.removeUID (p : Pool) (uid : String) : Pool :=
  p.filter fun e => e.1 ≠ uid

/-- The UIDs present in the pool. -/
def Pool.keys (p : Pool) : List String :=
  p.map Prod.fst

/-- `objectDriver.updateAdoptedObject`: the informer Add/Update
callback body.  It replaces an existing entry only when the incoming
generation is strictly greater; a UID that is not in the pool leaves
the pool unchanged. -/
def updateAdoptedObject (pool : Pool) (obj : KObject) : Pool :=
  match Pool.lookupUID pool obj.uid with
  | some prev =>
    if obj.generation > prev.generation then Pool.replaceUID pool obj.uid obj else pool
  | none => pool

/-- Error returned by `objectDriver.Adopt` when the object has no UID
(`errors.New("no object UID")`). -/
inductive DriverErr where
  | missingUid
  deriving DecidableEq, Repr

/-- `objectDriver.Adopt`: fail without a UID; otherwise insert a new
entry, or replace an existing one only on strictly greater generation. -/
def adopt (pool : Pool) (obj : KObject) : Except DriverErr Pool :=
  if obj.uid = "" then .error .missingUid
  else
    match Pool.lookupUID pool obj.uid with
    | some prev =>
      .ok (if obj.generation > prev.generation then Pool.replaceUID pool obj.uid obj else pool)
    | none => .ok (pool ++ [(obj.uid, obj)])

/-- An operation on the object pool: an `Adopt` call or an informer
event handled by the handler installed in `InformOn`. -/
inductive PoolOp where
  | adoptObj (o : KObject)
  | informAdd (o : KObject)
  | informUpdate (o : KObject)
  | informDelete (o : KObject)
  deriving DecidableEq, Repr

/-- True for informer events (no `Adopt` call). -/
def PoolOp.isInformerOnly : PoolOp → Bool
  | .adoptObj _ => false
  | _ => true

/-- True for the operations covered by the generation-monotonicity
claim: `Adopt` and the informer Add/Update events (deletion removes
entries unconditionally and is excluded). -/
def PoolOp.isMonotoneOp : PoolOp → Bool
  | .informDelete _ => false
  | _ => true

/-- Effect of one pool operation.  A failing `Adopt` leaves the pool
unchanged. -/
def applyPoolOp (pool : Pool) (op : PoolOp) : Pool :=
  match op with
  | .adoptObj o => match adopt pool o with | .ok p => p | .error _ => pool
  | .informAdd o => updateAdoptedObject pool o
  | .informUpdate o => updateAdoptedObject pool o
  | .informDelete o => Pool.removeUID pool o.uid

/-- A sequence of pool operations applied in order. -/
def runPoolOps (pool : Pool) (ops : List PoolOp) : Pool :=
  ops.foldl applyPoolOp pool

theorem Pool.lookupUID_replaceUID_self (p : Pool) (u : String) (o v : KObject)
    (h : Pool.lookupUID p u = some v) :
    Pool.lookupUID (Pool.replaceUID p u o) u = some o := by
  induction p with
  | nil => simp [Pool.lookupUID] at h
  | cons e rest ih =>
    obtain ⟨k, w⟩ := e
    by_cases hk : k = u
    · simp [Pool.lookupUID, Pool.replaceUID, hk]
    · simp only [Pool.lookupUID, Pool.replaceUID, hk, if_false] at h ⊢
      exact ih h

theorem Pool.lookupUID_replaceUID_ne (p : Pool) (u w : String) (o : KObject)
    (h : u ≠ w) :
    Pool.lookupUID (Pool.replaceUID p w o) u = Pool.lookupUID p u := by
  induction p with
  | nil => simp [Pool.replaceUID, Pool.lookupUID]
  | cons e rest ih =>
    obtain ⟨k, v⟩ := e
    by_cases hk : k = w
    · subst hk
      have hku : ¬ (k = u) := fun hku => h hku.symm
      simp [Pool.replaceUID, Pool.lookupUID, hku]
    · simp only [Pool.replaceUID, hk, if_false, Pool.lookupUID]
      by_cases hku : k = u
      · simp [hku]
      · simp [hku, ih]

theorem Pool.keys_replaceUID (p : Pool) (u : String) (o : KObject) :
    Pool.keys (Pool.replaceUID p u o) = Pool.keys p := by
  induction p with
  | nil => rfl
  | cons e rest ih =>
    obtain ⟨k, v⟩ := e
    by_cases hk : k = u
    · simp [Pool.replaceUID, Pool.keys, hk]
    · simp only [Pool.replaceUID, hk, if_false, Pool.keys, List.map_cons,
        List.cons.injEq, true_and]
      exact ih

theorem Pool.lookupUID_eq_none_iff (p : Pool) (u : String) :
    Pool.lookupUID p u = none ↔ u ∉ Pool.keys p := by
  induction p with
  | nil => simp [Pool.lookupUID, Pool.keys]
  | cons e rest ih =>
    obtain ⟨k, v⟩ := e
    by_cases hk : k = u
    · simp [Pool.lookupUID, Pool.keys, hk]
    · simp only [Pool.lookupUID, hk, if_false, Pool.keys, List.map_cons, List.mem_cons]
      rw [ih]
      constructor
      · intro hnot hmem
        rcases hmem with hu | hu
        · exact hk hu.symm
        · exact hnot hu
      · intro hnot hu
        exact hnot (Or.inr hu)

theorem Pool.lookupUID_append_of_some (p q : Pool) (u : String) (o : KObject)
    (h : Pool.lookupUID p u = some o) :
    Pool.lookupUID (p ++ q) u = some o := by
  induction p with
  | nil => simp [Pool.lookupUID] at h
  | cons e rest ih =>
    obtain ⟨k, v⟩ := e
    by_cases hk : k = u
    · simp only [Pool.lookupUID, hk, if_true] at h
      simp [Pool.lookupUID, hk, h]
    · simp only [Pool.lookupUID, hk, if_false] at h
      simp only [List.cons_append, Pool.lookupUID, hk, if_false]
      exact ih h

theorem Pool.keys_nodup_applyPoolOp (pool : Pool) (op : PoolOp)
    (h : (Pool.keys pool).Nodup) : (Pool.keys (applyPoolOp pool op)).Nodup := by
  have hremove : ∀ (p : Pool) (u : String), (Pool.keys p).Nodup →
      (Pool.keys (Pool.removeUID p u)).Nodup := by
    intro p u hp
    exact List.Nodup.sublist (List.Sublist.map _ (List.filter_sublist p)) hp
  have hupdate : ∀ (p : Pool) (o : KObject), (Pool.keys p).Nodup →
      (Pool.keys (updateAdoptedObject p o)).Nodup := by
    intro p o hp
    unfold updateAdoptedObject
    cases Pool.lookupUID p o.uid with
    | none => exact hp
    | some prev =>
      by_cases hgen : o.generation > prev.generation
      · simp only [hgen, if_true]
        rw [Pool.keys_replaceUID]
        exact hp
      · simp only [hgen, if_false]
        exact hp
  cases op with
  | adoptObj o =>
    simp only [applyPoolOp]
    unfold adopt
    by_cases huid : o.uid = ""
    · simp [huid, h]
    · simp only [huid, if_false]
      cases hl : Pool.lookupUID pool o.uid with
      | some prev =>
        by_cases hgen : o.generation > prev.generation
        · simp only [hgen, if_true]
          rw [Pool.keys_replaceUID]
          exact h
        · simp only [hgen, if_false]
          exact h
      | none =>
        simp only []
        have hk : o.uid ∉ Pool.keys pool := (Pool.lookupUID_eq_none_iff pool o.uid).mp hl
        have : Pool.keys (pool ++ [(o.uid, o)]) = Pool.keys pool ++ [o.uid] := by
          simp [Pool.keys]
        rw [this, List.nodup_append]
        refine ⟨h, List.nodup_singleton _, ?_⟩
        intro x hx hx1
        rw [List.mem_singleton] at hx1
        exact hk (hx1 ▸ hx)
  | informAdd o => exact hupdate pool o h
  | informUpdate o => exact hupdate pool o h
  | informDelete o => exact hremove pool o.uid h

theorem Pool.keys_nodup_runPoolOps (ops : List PoolOp) (pool : Pool)
    (h : (Pool.keys pool).Nodup) : (Pool.keys (runPoolOps pool ops)).Nodup := by
  induction ops generalizing pool with
  | nil => exact h
  | cons op ops ih =>
    exact ih (applyPoolOp pool op) (Pool.keys_nodup_applyPoolOp pool op h)

theorem updateAdoptedObject_mono (pool : Pool) (ob : KObject) (u : String)
    (o : KObject) (h : Pool.lookupUID pool u = some o) :
    ∃ v, Pool.lookupUID (updateAdoptedObject pool ob) u = some v ∧
      o.generation ≤ v.generation := by
  unfold updateAdoptedObject
  by_cases hu : u = ob.uid
  · subst hu
    rw [h]
    by_cases hgen : ob.generation > o.generation
    · simp only [hgen, if_true]
      exact ⟨ob, Pool.lookupUID_replaceUID_self pool ob.uid ob o h, le_of_lt hgen⟩
    · simp only [hgen, if_false]
      exact ⟨o, h, le_refl _⟩
  · cases hl : Pool.lookupUID pool ob.uid with
    | none => exact ⟨o, h, le_refl _⟩
    | some prev =>
      by_cases hgen : ob.generation > prev.generation
      · simp only [hgen, if_true]
        rw [Pool.lookupUID_replaceUID_ne pool u ob.uid ob hu]
        exact ⟨o, h, le_refl _⟩
      · simp only [hgen, if_false]
        exact ⟨o, h, le_refl _⟩

theorem applyPoolOp_mono (pool : Pool) (op : PoolOp) (u : String) (o : KObject)
    (hop : op.isMonotoneOp = true) (h : Pool.lookupUID pool u = some o) :
    ∃ v, Pool.lookupUID (applyPoolOp pool op) u = some v ∧
      o.generation ≤ v.generation := by
  cases op with
  | informDelete ob => simp [PoolOp.isMonotoneOp] at hop
  | informAdd ob => exact updateAdoptedObject_mono pool ob u o h
  | informUpdate ob => exact updateAdoptedObject_mono pool ob u o h
  | adoptObj ob =>
    simp only [applyPoolOp]
    unfold adopt
    by_cases huid : ob.uid = ""
    · simp only [huid, if_true]
      exact ⟨o, h, le_refl _⟩
    · simp only [huid, if_false]
      by_cases hu : u = ob.uid
      · subst hu
        rw [h]
        by_cases hgen : ob.generation > o.generation
        · simp only [hgen, if_true]
          exact ⟨ob, Pool.lookupUID_replaceUID_self pool ob.uid ob o h, le_of_lt hgen⟩
        · simp only [hgen, if_false]
          exact ⟨o, h, le_refl _⟩
      · cases hl : Pool.lookupUID pool ob.uid with
        | none =>
          simp only []
          exact ⟨o, Pool.lookupUID_append_of_some pool [(ob.uid, ob)] u o h, le_refl _⟩
        | some prev =>
          by_cases hgen : ob.generation > prev.generation
          · simp only [hgen, if_true]
            rw [Pool.lookupUID_replaceUID_ne pool u ob.uid ob hu]
            exact ⟨o, h, le_refl _⟩
          · simp only [hgen, if_false]
            exact ⟨o, h, le_refl _⟩

theorem runPoolOps_mono (ops : List PoolOp) (pool : Pool) (u : String) (o : KObject)
    (hops : ∀ op ∈ ops, op.isMonotoneOp = true)
    (h : Pool.lookupUID pool u = some o) :
    ∃ v, Pool.lookupUID (runPoolOps pool ops) u = some v ∧
      o.generation ≤ v.generation := by
  induction ops generalizing pool o with
  | nil => exact ⟨o, h, le_refl _⟩
  | cons op ops ih =>
    obtain ⟨v, hv, hvgen⟩ :=
      applyPoolOp_mono pool op u o (hops op (List.mem_cons_self ..)) h
    obtain ⟨w, hw, hwgen⟩ :=
      ih (applyPoolOp pool op) v (fun q hq => hops q (List.mem_cons_of_mem _ hq)) hv
    exact ⟨w, hw, le_trans hvgen hwgen⟩

/-- C2: `Adopt` fails with the missing-UID error and leaves the pool
unchanged when the object's UID is empty; otherwise it inserts the
object when its UID is not pooled, and replaces an existing entry
exactly when the new generation is strictly greater; the pool keys
stay duplicate-free under any sequence of adopt and informer
operations; and the generation recorded for a UID never decreases
across any sequence of `Adopt` and informer update operations. -/
theorem adopt_pool_invariants :
    (∀ (pool : Pool) (obj : KObject), obj.uid = "" →
        adopt pool obj = .error .missingUid
        ∧ applyPoolOp pool (.adoptObj obj) = pool)
    ∧ (∀ (pool : Pool) (obj : KObject), obj.uid ≠ "" →
        Pool.lookupUID pool obj.uid = none →
        adopt pool obj = .ok (pool ++ [(obj.uid, obj)]))
    ∧ (∀ (pool : Pool) (obj prev : KObject), obj.uid ≠ "" →
        Pool.lookupUID pool obj.uid = some prev →
        adopt pool obj = .ok
          (if obj.generation > prev.generation
            then Pool.replaceUID pool obj.uid obj else pool))
    ∧ (∀ (pool : Pool) (ops : List PoolOp), (Pool.keys pool).Nodup →
        (Pool.keys (runPoolOps pool ops)).Nodup)
    ∧ (∀ (ops : List PoolOp) (pool : Pool) (u : String) (o : KObject),
        (∀ op ∈ ops, op.isMonotoneOp = true) →
        Pool.lookupUID pool u = some o →
        ∃ v, Pool.lookupUID (runPoolOps pool ops) u = some v ∧
          o.generation ≤ v.generation) := by
  refine ⟨?_, ?_, ?_, ?_, runPoolOps_mono⟩
  · intro pool obj huid
    constructor
    · simp [adopt, huid]
    · simp [applyPoolOp, adopt, huid]
  · intro pool obj huid hl
    simp [adopt, huid, hl]
  · intro pool obj prev huid hl
    simp [adopt, huid, hl]
  · intro pool ops h
    exact Pool.keys_nodup_runPoolOps ops pool h

/-- Witness for `adopt_pool_invariants` at concrete pools. -/
theorem adopt_pool_invariants_witness :
    (adopt [] ⟨"", 1, "n", "d", "K"⟩ = .error .missingUid
      ∧ applyPoolOp [] (.adoptObj ⟨"", 1, "n", "d", "K"⟩) = [])
    ∧ adopt [] ⟨"u1", 1, "n", "d", "K"⟩
        = .ok [("u1", ⟨"u1", 1, "n", "d", "K"⟩)]
    ∧ adopt [("u1", ⟨"u1", 1, "n", "d", "K"⟩)] ⟨"u1", 2, "n2", "d", "K"⟩
        = .ok (if (2 : Int) > 1
            then Pool.replaceUID [("u1", ⟨"u1", 1, "n", "d", "K"⟩)] "u1"
              ⟨"u1", 2, "n2", "d", "K"⟩
            else [("u1", ⟨"u1", 1, "n", "d", "K"⟩)])
    ∧ (Pool.keys (runPoolOps []
        [.adoptObj ⟨"u1", 1, "n", "d", "K"⟩,
         .informUpdate ⟨"u1", 2, "n", "d", "K"⟩])).Nodup
    ∧ ∃ v, Pool.lookupUID
        (runPoolOps [("u1", ⟨"u1", 3, "n", "d", "K"⟩)]
          [.informUpdate ⟨"u1", 2, "n", "d", "K"⟩]) "u1" = some v
        ∧ (3 : Int) ≤ v.generation := by
  obtain ⟨h1, h2, h3, h4, h5⟩ := adopt_pool_invariants
  refine ⟨h1 [] ⟨"", 1, "n", "d", "K"⟩ rfl, ?_, ?_, ?_, ?_⟩
  · exact h2 [] ⟨"u1", 1, "n", "d", "K"⟩ (by decide) rfl
  · exact h3 [("u1", ⟨"u1", 1, "n", "d", "K"⟩)] ⟨"u1", 2, "n2", "d", "K"⟩
      ⟨"u1", 1, "n", "d", "K"⟩ (by decide) (by decide)
  · exact h4 [] _ (by decide)
  · exact h5 [.informUpdate ⟨"u1", 2, "n", "d", "K"⟩]
      [("u1", ⟨"u1", 3, "n", "d", "K"⟩)] "u1" ⟨"u1", 3, "n", "d", "K"⟩
      (by decide) (by decide)

theorem updateAdoptedObject_not_pooled (pool : Pool) (obj : KObject)
    (h : Pool.lookupUID pool obj.uid = none) :
    updateAdoptedObject pool obj = pool := by
  simp [updateAdoptedObject, h]

theorem lookupUID_none_applyInformerOp (pool : Pool) (op : PoolOp) (u : String)
    (hop : op.isInformerOnly = true) (h : Pool.lookupUID pool u = none) :
    Pool.lookupUID (applyPoolOp pool op) u = none := by
  have hupdate : ∀ ob, Pool.lookupUID (updateAdoptedObject pool ob) u = none := by
    intro ob
    rw [Pool.lookupUID_eq_none_iff] at h ⊢
    unfold updateAdoptedObject
    cases Pool.lookupUID pool ob.uid with
    | none => exact h
    | some prev =>
      by_cases hgen : ob.generation > prev.generation
      · simp only [hgen, if_true]
        rw [Pool.keys_replaceUID]
        exact h
      · simp only [hgen, if_false]
        exact h
  cases op with
  | adoptObj ob => simp [PoolOp.isInformerOnly] at hop
  | informAdd ob => exact hupdate ob
  | informUpdate ob => exact hupdate ob
  | informDelete ob =>
    rw [Pool.lookupUID_eq_none_iff] at h ⊢
    intro hmem
    refine h ?_
    simp only [applyPoolOp, Pool.removeUID, Pool.keys] at hmem
    obtain ⟨e, he, heq⟩ := List.mem_map.mp hmem
    exact List.mem_map.mpr ⟨e, (List.mem_filter.mp he).1, heq⟩

/-- C10: the pool handler installed by `InformOn` runs
`updateAdoptedObject` on Add and Update events, which only ever
replaces an existing entry (and only on a strictly greater
generation); an event for a UID not already pooled leaves the pool
unchanged, and across any sequence of informer events a UID that was
never adopted never enters the pool — so it is never targeted by
`DeleteAll`. -/
theorem informer_events_never_insert :
    (∀ (pool : Pool) (obj : KObject), Pool.lookupUID pool obj.uid = none →
        updateAdoptedObject pool obj = pool)
    ∧ (∀ (ops : List PoolOp) (pool : Pool) (u : String),
        (∀ op ∈ ops, op.isInformerOnly = true) →
        Pool.lookupUID pool u = none →
        Pool.lookupUID (runPoolOps pool ops) u = none) := by
  refine ⟨updateAdoptedObject_not_pooled, ?_⟩
  intro ops
  induction ops with
  | nil => intro pool u _ h; exact h
  | cons op ops ih =>
    intro pool u hops h
    exact ih (applyPoolOp pool op) u
      (fun q hq => hops q (List.mem_cons_of_mem _ hq))
      (lookupUID_none_applyInformerOp pool op u (hops op (List.mem_cons_self ..)) h)

/-- Witness for `informer_events_never_insert`. -/
theorem informer_events_never_insert_witness :
    updateAdoptedObject [] ⟨"u9", 4, "n", "d", "K"⟩ = []
    ∧ Pool.lookupUID (runPoolOps []
        [.informAdd ⟨"u9", 4, "n", "d", "K"⟩,
         .informUpdate ⟨"u9", 5, "n", "d", "K"⟩]) "u9" = none := by
  obtain ⟨h1, h2⟩ := informer_events_never_insert
  refine ⟨h1 [] ⟨"u9", 4, "n", "d", "K"⟩ rfl, ?_⟩
  exact h2 [.informAdd ⟨"u9", 4, "n", "d", "K"⟩,
    .informUpdate ⟨"u9", 5, "n", "d", "K"⟩] [] "u9" (by decide) rfl

/-! ## Assertion rules (pkg/driver/rules.go) and result extraction
(pkg/driver/rego.go)

`rules` lists the rule-name patterns that mark a rule as a test
assertion.  `Eval` queries exactly the rules that
`findAssertionRules` selects from a module's rule head names, and
turns each evaluated key term into results with `extractResult`. -/

/-- An assertion rule pattern.  The Go field `prefix` is a reserved
word in Lean and is spelled `pfx` here. -/
structure RuleInfo where
  name : String
  pfx : String
  severity : Severity
  deriving DecidableEq, Repr

/-- The `rules` table from pkg/driver/rules.go.  In the sources it
holds exactly the `error`, `fatal` and `skip` patterns. -/
def rules : List RuleInfo :=
  [⟨"error", "error_", .Error⟩,
   ⟨"fatal", "fatal_", .Fatal⟩,
   ⟨"skip", "skip_", .Skip⟩]

/-- `strings.HasPrefix(s, pre)`, spelled out over the character list
so that it evaluates by kernel reduction. -/
def strHasPrefix (s pre : String) : Bool :=
  s.data.take pre.data.length == pre.data

/-- `matchRuleByName`: first table entry matching the name exactly or
by prefix. -/
def matchRuleByName (name : String) : Option RuleInfo :=
  rules.find? fun q => name == q.name || strHasPrefix name q.pfx

/-- `severityForRuleName`: the matched severity, `None` otherwise. -/
def severityForRuleName (name : String) : Severity :=
  match matchRuleByName name with
  | some q => q.severity
  | none => .None

/-- `findAssertionRules`: the distinct rule head names whose severity
is not `None` (the Go code collects them in a set; the iteration order
of a Go map is unspecified, so any fixed order is a faithful
determinization). -/
def findAssertionRules (ruleNames : List String) : List String :=
  (ruleNames.filter fun n => severityForRuleName n != Severity.None).dedup

/-- C3 (code evaluated at the failing input): rules named `check` or
`check_*` match no entry of the `rules` table, get severity `None`,
and are dropped by `findAssertionRules`, so `Eval` never queries them
— while the `error`/`fatal`/`skip` patterns are matched as the table
says.  This contradicts the spec table and the repository's own
`TestQueryResultResult`, which evaluates a module containing only
`check`/`check_something_else` rules and expects three results. -/
theorem check_rules_not_queried :
    matchRuleByName "check" = none
    ∧ severityForRuleName "check" = Severity.None
    ∧ severityForRuleName "check_something_else" = Severity.None
    ∧ findAssertionRules ["check", "check_something_else"] = []
    ∧ severityForRuleName "error" = Severity.Error
    ∧ severityForRuleName "fatal_x" = Severity.Fatal
    ∧ severityForRuleName "skip" = Severity.Skip := by
  refine ⟨rfl, rfl, rfl, rfl, rfl, rfl, rfl⟩

/-- A dynamically typed Go value as produced by Rego evaluation of a
key term (the JSON universe plus `json.Number`, which Rego uses for
numerics).  `numVal` carries the number's decimal text. -/
inductive GoValue where
  | nilVal
  | boolVal (b : Bool)
  | strVal (s : String)
  | numVal (num : String)
  | listVal (xs : List GoValue)
  | mapVal (fields : List (String × GoValue))

/-- The text Go's `%T` verb prints for the dynamic type of the value. -/
def goTypeName : GoValue → String
  | .nilVal => "<nil>"
  | .boolVal _ => "bool"
  | .strVal _ => "string"
  | .numVal _ => "json.Number"
  | .listVal _ => "[]interface \x7b\x7d"
  | .mapVal _ => "map[string]interface \x7b\x7d"

/-- Go map read `value[key]` (keys of a decoded JSON map are unique). -/
def lookupField : List (String × GoValue) → String → Option GoValue
  | [], _ => none
  | (k, v) :: rest, key => if k = key then some v else lookupField rest key

/-- Helper for `utils.AsStringSlice`: the element strings, if every
element is a string. -/
def asStringList : List GoValue → Option (List String)
  | [] => some []
  | .strVal s :: rest => (asStringList rest).map (s :: ·)
  | _ => none

/-- `utils.AsStringSlice`: a non-empty `[]interface` value all of
whose elements are strings. -/
def asStringSlice : GoValue → Option (List String)
  | .listVal xs => if xs.isEmpty then none else asStringList xs
  | _ => none

/-- `extractOneResult` from pkg/driver/rego.go: convert one element of
an evaluated key term into a `Result`.  The YAML rendering performed
by `yaml.Marshal` is an external collaborator and is passed in as
`dump`. -/
def extractOneResult (dump : GoValue → String) (severity : Severity)
    (v : GoValue) : Result :=
  match asStringSlice v with
  | some s => ⟨severity, joinLines s⟩
  | none =>
    match v with
    | .boolVal _ => ⟨severity, ""⟩
    | .strVal s => ⟨severity, s⟩
    | .mapVal fields =>
      let msg := match lookupField fields "msg" with
        | some (.strVal m) => m
        | _ => ""
      let sev := match lookupField fields "result" with
        | some (.strVal r) =>
          if r = "Error" then Severity.Error
          else if r = "Fatal" then Severity.Fatal
          else if r = "Skip" then Severity.Skip
          else if r = "Pass" then Severity.Pass
          else severity
        | _ => severity
      ⟨sev, msg⟩
    | other =>
      ⟨severity,
        joinLines ["unhandled result value type \x27" ++ goTypeName other ++ "\x27",
          dump other]⟩

/-- `extractResult` from pkg/driver/rego.go: one result per element of
a slice-valued key term, a single result otherwise, each prefixed with
the raised-predicate line (`text` is the queried rule name). -/
def extractResult (dump : GoValue → String) (text : String)
    (value : GoValue) : List Result :=
  let results := match value with
    | .listVal xs => xs.map (extractOneResult dump (severityForRuleName text))
    | v => [extractOneResult dump (severityForRuleName text) v]
  results.map fun r =>
    let pre := "raised predicate \"" ++ text ++ "\""
    if r.message = "" then { r with message := pre }
    else { r with message := joinLines [pre, r.message] }

/-- C4: each element of an evaluated key term maps to exactly one
result; a boolean gives the predicate's severity with an empty body; a
string becomes the body; a non-empty list of strings is joined by
newlines; a mapping with a string `msg` takes `msg` as body and the
`result` field as severity when it is one of Error, Fatal, Skip, Pass
(the predicate's severity otherwise, including when `result` is
absent); any other value reports the unhandled type followed by the
YAML dump; and every extracted result's message starts with the line
`raised predicate "<name>"`. -/
theorem extractResult_element_shapes (dump : GoValue → String) (text : String) :
    (∀ xs, (extractResult dump text (.listVal xs)).length = xs.length)
    ∧ (∀ sev b, extractOneResult dump sev (.boolVal b) = ⟨sev, ""⟩)
    ∧ (∀ sev s, extractOneResult dump sev (.strVal s) = ⟨sev, s⟩)
    ∧ (∀ sev ss, ss ≠ [] →
        extractOneResult dump sev (.listVal (ss.map GoValue.strVal))
          = ⟨sev, joinLines ss⟩)
    ∧ (∀ sev fields m r, lookupField fields "msg" = some (.strVal m) →
        lookupField fields "result" = some (.strVal r) →
        extractOneResult dump sev (.mapVal fields)
          = ⟨if r = "Error" then Severity.Error
              else if r = "Fatal" then Severity.Fatal
              else if r = "Skip" then Severity.Skip
              else if r = "Pass" then Severity.Pass
              else sev, m⟩)
    ∧ (∀ sev fields m, lookupField fields "msg" = some (.strVal m) →
        lookupField fields "result" = none →
        extractOneResult dump sev (.mapVal fields) = ⟨sev, m⟩)
    ∧ (∀ sev num, extractOneResult dump sev (.numVal num)
        = ⟨sev, joinLines ["unhandled result value type \x27json.Number\x27",
            dump (.numVal num)]⟩)
    ∧ (∀ v r, r ∈ extractResult dump text v →
        ∃ tail, r.message = "raised predicate \"" ++ text ++ "\"" ++ tail) := by
  refine ⟨?_, ?_, ?_, ?_, ?_, ?_, ?_, ?_⟩
  · intro xs
    simp [extractResult]
  · intro sev b
    rfl
  · intro sev s
    rfl
  · intro sev ss hne
    have hmap : asStringList (ss.map GoValue.strVal) = some ss := by
      clear hne
      induction ss with
      | nil => rfl
      | cons a as ih => simp [asStringList, ih]
    have hemp : (ss.map GoValue.strVal).isEmpty = false := by
      cases ss with
      | nil => exact absurd rfl hne
      | cons a as => rfl
    simp [extractOneResult, asStringSlice, hemp, hmap]
  · intro sev fields m r hmsg hres
    simp [extractOneResult, asStringSlice, hmsg, hres]
  · intro sev fields m hmsg hres
    simp [extractOneResult, asStringSlice, hmsg, hres]
  · intro sev num
    rfl
  · intro v r hr
    simp only [extractResult, List.mem_map] at hr
    obtain ⟨r0, _, hr0⟩ := hr
    by_cases hmsg : r0.message = ""
    · refine ⟨"", ?_⟩
      rw [← hr0, if_pos hmsg]
      simp
    · refine ⟨"\n" ++ r0.message, ?_⟩
      rw [← hr0, if_neg hmsg]
      show joinLines ["raised predicate \"" ++ text ++ "\"", r0.message]
          = "raised predicate \"" ++ text ++ "\"" ++ ("\n" ++ r0.message)
      rw [← String.append_assoc]
      rfl

/-- Witness for `extractResult_element_shapes` at concrete values. -/
theorem extractResult_element_shapes_witness :
    (extractResult (fun _ => "") "error"
        (.listVal [.strVal "a", .boolVal true])).length = 2
    ∧ extractOneResult (fun _ => "") .Error (.boolVal true) = ⟨.Error, ""⟩
    ∧ extractOneResult (fun _ => "") .Error (.strVal "oops") = ⟨.Error, "oops"⟩
    ∧ extractOneResult (fun _ => "") .Error
        (.listVal [.strVal "a", .strVal "b"]) = ⟨.Error, joinLines ["a", "b"]⟩
    ∧ extractOneResult (fun _ => "") .Error
        (.mapVal [("msg", .strVal "m"), ("result", .strVal "Skip")])
        = ⟨if "Skip" = "Error" then Severity.Error
            else if "Skip" = "Fatal" then Severity.Fatal
            else if "Skip" = "Skip" then Severity.Skip
            else if "Skip" = "Pass" then Severity.Pass
            else .Error, "m"⟩
    ∧ extractOneResult (fun _ => "") .Error
        (.mapVal [("msg", .strVal "m")]) = ⟨.Error, "m"⟩
    ∧ extractOneResult (fun _ => "1\n") .Error (.numVal "1")
        = ⟨.Error, joinLines ["unhandled result value type \x27json.Number\x27", "1\n"]⟩
    ∧ ∃ tail, (Result.mk (severityForRuleName "error")
          (joinLines ["raised predicate \"" ++ "error" ++ "\"", "oops"])).message
        = "raised predicate \"" ++ "error" ++ "\"" ++ tail := by
  obtain ⟨h1, h2, h3, h4, h5, h6, h7, h8⟩ :=
    extractResult_element_shapes (fun _ => "") "error"
  have h7c := extractResult_element_shapes (fun _ => "1\n") "error"
  have hmem : (⟨severityForRuleName "error",
      joinLines ["raised predicate \"" ++ "error" ++ "\"", "oops"]⟩ : Result)
      ∈ extractResult (fun _ => "") "error" (.strVal "oops") := by
    rw [show extractResult (fun _ => "") "error" (.strVal "oops")
        = [⟨severityForRuleName "error",
            joinLines ["raised predicate \"" ++ "error" ++ "\"", "oops"]⟩] from rfl]
    exact List.mem_singleton.mpr rfl
  exact ⟨h1 _, h2 _ _, h3 _ _, h4 .Error ["a", "b"] (by decide),
    h5 .Error _ "m" "Skip" rfl rfl, h6 .Error _ "m" rfl rfl,
    h7c.2.2.2.2.2.2.1 .Error "1", h8 (.strVal "oops") _ hmem⟩

/-! ## `objectDriver.Apply` (pkg/driver/objects.go)

`Apply` issues a Create through the dynamic client and, when the
server answers AlreadyExists, retries as a Patch.  The Kubernetes
client, discovery, and the scheme check are external collaborators,
supplied as an `ApplyWorld` oracle. -/

/-- A server `metav1.Status`; only the reason is inspected by the
modelled code (`apierrors.IsAlreadyExists`, NotFound/Gone checks). -/
structure Status where
  reason : String
  deriving DecidableEq, Repr

/-- An error from a dynamic-client call: either a
`*apierrors.StatusError` carrying a server status, or any other
(transport) Go error. -/
inductive KubeErr where
  | statusErr (s : Status)
  | transport (msg : String)
  deriving DecidableEq, Repr

/-- `apierrors.IsAlreadyExists`: a status error with reason
AlreadyExists. -/
def isAlreadyExists : KubeErr → Bool
  | .statusErr s => s.reason == "AlreadyExists"
  | .transport _ => false

/-- The patch strategy chosen for the AlreadyExists retry. -/
inductive PatchType where
  | strategicMerge
  | mergePatch
  deriving DecidableEq, Repr

/-- `OperationResult`: the server status (or none) and the latest
object.  The `Target` reference is derived from `Latest` in the
source and carries no extra state, so it is omitted. -/
structure OperationResult where
  error : Option Status
  latest : KObject
  deriving DecidableEq, Repr

/-- The external collaborators consulted by `Apply`: discovery
(namespaced-ness and GVR resolution), the scheme check used to pick
the patch type, and the dynamic client's Create/Patch calls. -/
structure ApplyWorld where
  namespacedResult : Except String Bool
  resourceResult : Except String Unit
  isBuiltin : Bool
  createResult : Except KubeErr KObject
  patchResult : PatchType → Except KubeErr KObject

/-- Namespace defaulting performed by `Apply` and `Delete` before
talking to the server. -/
def defaultNamespace (isNamespaced : Bool) (obj : KObject) : KObject :=
  if isNamespaced then
    (if obj.nspace = "" then { obj with nspace := "default" } else obj)
  else obj

/-- What `Apply` returns, together with the pool it leaves behind and
which patch call (if any) it issued. -/
structure ApplyOut where
  result : Option OperationResult
  goErr : Option String
  pool : Pool
  patchCall : Option PatchType

/-- `objectDriver.Apply`: create, retry an AlreadyExists as a patch
(strategic merge for built-in types, merge patch otherwise), adopt the
returned object on success; a status error lands in the operation
result with a nil Go error, any other error is returned as a Go error
with a nil result. -/
def applyObject (w : ApplyWorld) (pool : Pool) (obj : KObject) : ApplyOut :=
  match w.namespacedResult with
  | .error e => ⟨none, some ("failed check if resource kind is namespaced: " ++ e), pool, none⟩
  | .ok isNamespaced =>
    match w.resourceResult with
    | .error e => ⟨none, some ("failed to resolve resource for kind: " ++ e), pool, none⟩
    | .ok _ =>
      let obj := defaultNamespace isNamespaced obj
      let afterCreate : Except KubeErr KObject × Option PatchType :=
        match w.createResult with
        | .error e =>
          if isAlreadyExists e then
            let ptype := if w.isBuiltin then PatchType.strategicMerge else PatchType.mergePatch
            (w.patchResult ptype, some ptype)
          else (.error e, none)
        | .ok latest => (.ok latest, none)
      match afterCreate with
      | (.ok latest, pc) =>
        match adopt pool latest with
        | .error _ => ⟨none, some "failed to adopt", pool, pc⟩
        | .ok pool2 => ⟨some ⟨none, latest⟩, none, pool2, pc⟩
      | (.error (.statusErr s), pc) => ⟨some ⟨some s, obj⟩, none, pool, pc⟩
      | (.error (.transport m), pc) =>
        ⟨none, some ("failed to apply resource: " ++ m), pool, pc⟩

theorem adopt_ok_of_uid_ne (pool : Pool) (obj : KObject) (h : obj.uid ≠ "") :
    ∃ pool2, adopt pool obj = .ok pool2 := by
  unfold adopt
  rw [if_neg h]
  cases Pool.lookupUID pool obj.uid with
  | some prev => exact ⟨_, rfl⟩
  | none => exact ⟨_, rfl⟩

/-- C5: `Apply` creates the object and, when the server reports
AlreadyExists, retries as a patch whose type is strategic merge for
built-in types and merge patch otherwise; a server status error yields
a non-nil operation result carrying that status and a nil Go error,
leaving the pool unchanged; a transport error yields a nil result and
a non-nil Go error; and on success the returned latest object is
adopted into the pool. -/
theorem apply_create_patch_semantics (w : ApplyWorld) (pool : Pool) (obj : KObject)
    (isNamespaced : Bool)
    (hns : w.namespacedResult = .ok isNamespaced)
    (hres : w.resourceResult = .ok ()) :
    (∀ s, w.createResult = .error (.statusErr s) → s.reason = "AlreadyExists" →
        (applyObject w pool obj).patchCall
          = some (if w.isBuiltin then PatchType.strategicMerge else PatchType.mergePatch))
    ∧ (∀ latest, w.createResult = .ok latest → latest.uid ≠ "" →
        ∃ pool2, adopt pool latest = .ok pool2
          ∧ applyObject w pool obj = ⟨some ⟨none, latest⟩, none, pool2, none⟩)
    ∧ (∀ s latest, w.createResult = .error (.statusErr s) → s.reason = "AlreadyExists" →
        (∀ pt, w.patchResult pt = .ok latest) → latest.uid ≠ "" →
        ∃ pool2, adopt pool latest = .ok pool2
          ∧ applyObject w pool obj = ⟨some ⟨none, latest⟩, none, pool2,
              some (if w.isBuiltin then PatchType.strategicMerge else PatchType.mergePatch)⟩)
    ∧ (∀ s, w.createResult = .error (.statusErr s) → s.reason ≠ "AlreadyExists" →
        applyObject w pool obj
          = ⟨some ⟨some s, defaultNamespace isNamespaced obj⟩, none, pool, none⟩)
    ∧ (∀ m, w.createResult = .error (.transport m) →
        applyObject w pool obj
          = ⟨none, some ("failed to apply resource: " ++ m), pool, none⟩)
    ∧ (∀ s s2, w.createResult = .error (.statusErr s) → s.reason = "AlreadyExists" →
        (∀ pt, w.patchResult pt = .error (.statusErr s2)) →
        applyObject w pool obj
          = ⟨some ⟨some s2, defaultNamespace isNamespaced obj⟩, none, pool,
              some (if w.isBuiltin then PatchType.strategicMerge else PatchType.mergePatch)⟩)
    ∧ (∀ s m, w.createResult = .error (.statusErr s) → s.reason = "AlreadyExists" →
        (∀ pt, w.patchResult pt = .error (.transport m)) →
        applyObject w pool obj
          = ⟨none, some ("failed to apply resource: " ++ m), pool,
              some (if w.isBuiltin then PatchType.strategicMerge else PatchType.mergePatch)⟩) := by
  refine ⟨?_, ?_, ?_, ?_, ?_, ?_, ?_⟩
  · intro s hcr hae
    have : isAlreadyExists (.statusErr s) = true := by
      simp [isAlreadyExists, hae]
    cases hpt : w.patchResult
        (if w.isBuiltin then PatchType.strategicMerge else PatchType.mergePatch) with
    | ok latest =>
      cases hadopt : adopt pool latest with
      | ok pool2 => simp [applyObject, hns, hres, hcr, this, hpt, hadopt]
      | error e => simp [applyObject, hns, hres, hcr, this, hpt, hadopt]
    | error e =>
      cases e with
      | statusErr s2 => simp [applyObject, hns, hres, hcr, this, hpt]
      | transport m => simp [applyObject, hns, hres, hcr, this, hpt]
  · intro latest hcr huid
    obtain ⟨pool2, hpool2⟩ := adopt_ok_of_uid_ne pool latest huid
    exact ⟨pool2, hpool2, by simp [applyObject, hns, hres, hcr, hpool2]⟩
  · intro s latest hcr hae hpt huid
    have haeb : isAlreadyExists (.statusErr s) = true := by
      simp [isAlreadyExists, hae]
    obtain ⟨pool2, hpool2⟩ := adopt_ok_of_uid_ne pool latest huid
    exact ⟨pool2, hpool2, by simp [applyObject, hns, hres, hcr, haeb, hpt, hpool2]⟩
  · intro s hcr hae
    have : isAlreadyExists (.statusErr s) = false := by
      simp [isAlreadyExists, hae]
    simp [applyObject, hns, hres, hcr, this]
  · intro m hcr
    simp [applyObject, hns, hres, hcr, isAlreadyExists]
  · intro s s2 hcr hae hpt
    have : isAlreadyExists (.statusErr s) = true := by
      simp [isAlreadyExists, hae]
    simp [applyObject, hns, hres, hcr, this, hpt]
  · intro s m hcr hae hpt
    have : isAlreadyExists (.statusErr s) = true := by
      simp [isAlreadyExists, hae]
    simp [applyObject, hns, hres, hcr, this, hpt]

/-- Witness for `apply_create_patch_semantics` at concrete worlds. -/
theorem apply_create_patch_semantics_witness :
    (applyObject
        ⟨.ok true, .ok (), false, .error (.statusErr ⟨"AlreadyExists"⟩),
          fun _ => .ok ⟨"u2", 1, "n", "d", "K"⟩⟩
        [] ⟨"", 0, "n", "", "K"⟩).patchCall = some PatchType.mergePatch
    ∧ (∃ pool2, adopt [] (⟨"u2", 1, "n", "d", "K"⟩ : KObject) = .ok pool2
        ∧ applyObject
            ⟨.ok true, .ok (), false, .ok ⟨"u2", 1, "n", "d", "K"⟩,
              fun _ => .error (.transport "x")⟩
            [] ⟨"", 0, "n", "", "K"⟩
          = ⟨some ⟨none, ⟨"u2", 1, "n", "d", "K"⟩⟩, none, pool2, none⟩)
    ∧ applyObject
        ⟨.ok true, .ok (), true, .error (.statusErr ⟨"Invalid"⟩),
          fun _ => .error (.transport "x")⟩
        [] ⟨"", 0, "n", "", "K"⟩
      = ⟨some ⟨some ⟨"Invalid"⟩,
          defaultNamespace true ⟨"", 0, "n", "", "K"⟩⟩, none, [], none⟩
    ∧ applyObject
        ⟨.ok true, .ok (), true, .error (.transport "conn reset"),
          fun _ => .error (.transport "x")⟩
        [] ⟨"", 0, "n", "", "K"⟩
      = ⟨none, some ("failed to apply resource: " ++ "conn reset"), [], none⟩ := by
  refine ⟨?_, ?_, ?_, ?_⟩
  · exact (apply_create_patch_semantics
      ⟨.ok true, .ok (), false, .error (.statusErr ⟨"AlreadyExists"⟩),
        fun _ => .ok ⟨"u2", 1, "n", "d", "K"⟩⟩
      [] ⟨"", 0, "n", "", "K"⟩ true rfl rfl).1 ⟨"AlreadyExists"⟩ rfl rfl
  · exact (apply_create_patch_semantics
      ⟨.ok true, .ok (), false, .ok ⟨"u2", 1, "n", "d", "K"⟩,
        fun _ => .error (.transport "x")⟩
      [] ⟨"", 0, "n", "", "K"⟩ true rfl rfl).2.1 ⟨"u2", 1, "n", "d", "K"⟩ rfl
      (by decide)
  · exact (apply_create_patch_semantics
      ⟨.ok true, .ok (), true, .error (.statusErr ⟨"Invalid"⟩),
        fun _ => .error (.transport "x")⟩
      [] ⟨"", 0, "n", "", "K"⟩ true rfl rfl).2.2.2.1 ⟨"Invalid"⟩ rfl (by decide)
  · exact (apply_create_patch_semantics
      ⟨.ok true, .ok (), true, .error (.transport "conn reset"),
        fun _ => .error (.transport "x")⟩
      [] ⟨"", 0, "n", "", "K"⟩ true rfl rfl).2.2.2.2.1 "conn reset" rfl

/-! ## `objectDriver.DeleteAll` (pkg/driver/objects.go)

`DeleteAll` loops: snapshot the pool, delete each snapshotted object,
remove NotFound/Gone targets from the pool directly, and return a
chained error as soon as a pass collected any error.  Between
error-free passes the driver sleeps ~1 s; during that sleep informer
delete callbacks may remove pool entries (cascaded deletions), which
is what eventually empties the pool.  One `DeletePass` describes one
loop iteration: the per-UID outcome of `Delete`, and the UIDs the
informer removes during the following sleep. -/

/-- The outcome of `objectDriver.Delete` for one target, keyed by UID:
a Go error (nil result), an operation result carrying a server status,
or an accepted deletion (nil status). -/
inductive DeleteOutcome where
  | goErr (msg : String)
  | statusErr (s : Status)
  | accepted
  deriving DecidableEq, Repr

/-- An element of the cause chain built by `utils.ChainErrors`:
the leading `errors.New("failed to delete all objects")` sentinel, a
Go error from `Delete`, or a re-wrapped `apierrors.StatusError`. -/
inductive DeleteErr where
  | sentinel
  | goErr (msg : String)
  | statusErr (s : Status)
  deriving DecidableEq, Repr

/-- One pass of the `DeleteAll` loop as seen from outside. -/
structure DeletePass where
  outcome : String → DeleteOutcome
  cascadeRemovals : List String

/-- The NotFound/Gone check in `DeleteAll`
(`metav1.StatusReasonNotFound`, `metav1.StatusReasonGone`). -/
def isNotFoundOrGone (s : Status) : Bool :=
  s.reason == "NotFound" || s.reason == "Gone"

/-- The body of one `DeleteAll` pass: walk the snapshotted targets;
collect Go errors and non-NotFound/Gone statuses; remove
NotFound/Gone targets from the pool directly. -/
def runDeletePass (oracle : String → DeleteOutcome) :
    List (String × KObject) → Pool → List DeleteErr → Pool × List DeleteErr
  | [], pool, errs => (pool, errs)
  | (u, _) :: rest, pool, errs =>
    match oracle u with
    | .goErr m => runDeletePass oracle rest pool (errs ++ [.goErr m])
    | .statusErr s =>
      if isNotFoundOrGone s then runDeletePass oracle rest (Pool.removeUID pool u) errs
      else runDeletePass oracle rest pool (errs ++ [.statusErr s])
    | .accepted => runDeletePass oracle rest pool errs

/-- What `DeleteAll` returns: nil, or the single chained error built
by `utils.ChainErrors` (head sentinel followed by the causes). -/
inductive DeleteAllResult where
  | ok
  | chainedErr (errs : List DeleteErr)
  deriving DecidableEq, Repr

/-- `objectDriver.DeleteAll` over a list of passes (the pass list is
the fuel: `none` means the run outlives the supplied passes).  The
final pool is returned alongside the result. -/
def deleteAll : Pool → List DeletePass → Option (DeleteAllResult × Pool)
  | pool, [] => if pool.isEmpty then some (.ok, pool) else none
  | pool, p :: rest =>
    if pool.isEmpty then some (.ok, pool)
    else
      let res := runDeletePass p.outcome pool pool []
      if res.2.isEmpty then
        deleteAll (p.cascadeRemovals.foldl Pool.removeUID res.1) rest
      else some (.chainedErr (.sentinel :: res.2), res.1)

/-- True when the outcome makes `DeleteAll` remove the UID directly. -/
def DeleteOutcome.removesTarget : DeleteOutcome → Bool
  | .statusErr s => isNotFoundOrGone s
  | _ => false

/-- True when the outcome contributes to the pass error list. -/
def DeleteOutcome.isFailure : DeleteOutcome → Bool
  | .goErr _ => true
  | .statusErr s => !(isNotFoundOrGone s)
  | .accepted => false

theorem runDeletePass_cons_goErr (oracle : String → DeleteOutcome)
    (ts : List (String × KObject)) (pool : Pool) (errs : List DeleteErr)
    (u : String) (o : KObject) (m : String) (h : oracle u = .goErr m) :
    runDeletePass oracle ((u, o) :: ts) pool errs
      = runDeletePass oracle ts pool (errs ++ [.goErr m]) := by
  simp [runDeletePass, h]

theorem runDeletePass_cons_accepted (oracle : String → DeleteOutcome)
    (ts : List (String × KObject)) (pool : Pool) (errs : List DeleteErr)
    (u : String) (o : KObject) (h : oracle u = .accepted) :
    runDeletePass oracle ((u, o) :: ts) pool errs
      = runDeletePass oracle ts pool errs := by
  simp [runDeletePass, h]

theorem runDeletePass_cons_nfg (oracle : String → DeleteOutcome)
    (ts : List (String × KObject)) (pool : Pool) (errs : List DeleteErr)
    (u : String) (o : KObject) (s : Status) (h : oracle u = .statusErr s)
    (hn : isNotFoundOrGone s = true) :
    runDeletePass oracle ((u, o) :: ts) pool errs
      = runDeletePass oracle ts (Pool.removeUID pool u) errs := by
  simp [runDeletePass, h, hn]

theorem runDeletePass_cons_status (oracle : String → DeleteOutcome)
    (ts : List (String × KObject)) (pool : Pool) (errs : List DeleteErr)
    (u : String) (o : KObject) (s : Status) (h : oracle u = .statusErr s)
    (hn : isNotFoundOrGone s = false) :
    runDeletePass oracle ((u, o) :: ts) pool errs
      = runDeletePass oracle ts pool (errs ++ [.statusErr s]) := by
  simp [runDeletePass, h, hn]

theorem removeUID_keys_subset (pool : Pool) (w u : String)
    (h : u ∈ Pool.keys (Pool.removeUID pool w)) : u ∈ Pool.keys pool := by
  simp only [Pool.removeUID, Pool.keys] at h
  obtain ⟨e, he, heq⟩ := List.mem_map.mp h
  exact List.mem_map.mpr ⟨e, (List.mem_filter.mp he).1, heq⟩

theorem runDeletePass_keys_subset (oracle : String → DeleteOutcome) :
    ∀ (ts : List (String × KObject)) (pool : Pool) (errs : List DeleteErr) (u : String),
      u ∈ Pool.keys (runDeletePass oracle ts pool errs).1 → u ∈ Pool.keys pool := by
  intro ts
  induction ts with
  | nil => intro pool errs u h; exact h
  | cons t rest ih =>
    obtain ⟨w, ow⟩ := t
    intro pool errs u h
    cases hw : oracle w with
    | goErr m =>
      rw [runDeletePass_cons_goErr oracle rest pool errs w ow m hw] at h
      exact ih pool _ u h
    | accepted =>
      rw [runDeletePass_cons_accepted oracle rest pool errs w ow hw] at h
      exact ih pool _ u h
    | statusErr s =>
      cases hnfg : isNotFoundOrGone s with
      | true =>
        rw [runDeletePass_cons_nfg oracle rest pool errs w ow s hw hnfg] at h
        exact removeUID_keys_subset pool w u (ih (Pool.removeUID pool w) errs u h)
      | false =>
        rw [runDeletePass_cons_status oracle rest pool errs w ow s hw hnfg] at h
        exact ih pool _ u h

theorem runDeletePass_removes (oracle : String → DeleteOutcome) :
    ∀ (ts : List (String × KObject)) (pool : Pool) (errs : List DeleteErr)
      (u : String) (o : KObject),
      (u, o) ∈ ts → (oracle u).removesTarget = true →
      u ∉ Pool.keys (runDeletePass oracle ts pool errs).1 := by
  intro ts
  induction ts with
  | nil => intro pool errs u o h _; simp at h
  | cons t rest ih =>
    obtain ⟨w, ow⟩ := t
    intro pool errs u o hmem hrm
    rcases List.mem_cons.mp hmem with heq | hmem2
    · have hu : u = w := congrArg Prod.fst heq
      subst hu
      cases hw : oracle u with
      | goErr m => rw [hw] at hrm; simp [DeleteOutcome.removesTarget] at hrm
      | accepted => rw [hw] at hrm; simp [DeleteOutcome.removesTarget] at hrm
      | statusErr s =>
        have hnfg : isNotFoundOrGone s = true := by
          rw [hw] at hrm
          simpa [DeleteOutcome.removesTarget] using hrm
        rw [runDeletePass_cons_nfg oracle rest pool errs u ow s hw hnfg]
        intro hin
        have := runDeletePass_keys_subset oracle rest (Pool.removeUID pool u) errs u hin
        simp only [Pool.removeUID, Pool.keys] at this
        obtain ⟨e, he, heq⟩ := List.mem_map.mp this
        have hne := (List.mem_filter.mp he).2
        rw [heq] at hne
        simp at hne
    · cases hw : oracle w with
      | goErr m =>
        rw [runDeletePass_cons_goErr oracle rest pool errs w ow m hw]
        exact ih pool _ u o hmem2 hrm
      | accepted =>
        rw [runDeletePass_cons_accepted oracle rest pool errs w ow hw]
        exact ih pool _ u o hmem2 hrm
      | statusErr s =>
        cases hnfg : isNotFoundOrGone s with
        | true =>
          rw [runDeletePass_cons_nfg oracle rest pool errs w ow s hw hnfg]
          exact ih (Pool.removeUID pool w) _ u o hmem2 hrm
        | false =>
          rw [runDeletePass_cons_status oracle rest pool errs w ow s hw hnfg]
          exact ih pool _ u o hmem2 hrm

theorem runDeletePass_entry_survives (oracle : String → DeleteOutcome) :
    ∀ (ts : List (String × KObject)) (pool : Pool) (errs : List DeleteErr)
      (u : String) (o : KObject),
      (u, o) ∈ pool → (oracle u).removesTarget = false →
      (u, o) ∈ (runDeletePass oracle ts pool errs).1 := by
  intro ts
  induction ts with
  | nil => intro pool errs u o h _; exact h
  | cons t rest ih =>
    obtain ⟨w, ow⟩ := t
    intro pool errs u o hmem hrm
    cases hw : oracle w with
    | goErr m =>
      rw [runDeletePass_cons_goErr oracle rest pool errs w ow m hw]
      exact ih pool _ u o hmem hrm
    | accepted =>
      rw [runDeletePass_cons_accepted oracle rest pool errs w ow hw]
      exact ih pool _ u o hmem hrm
    | statusErr s =>
      cases hnfg : isNotFoundOrGone s with
      | true =>
        rw [runDeletePass_cons_nfg oracle rest pool errs w ow s hw hnfg]
        refine ih (Pool.removeUID pool w) _ u o ?_ hrm
        by_cases huw : u = w
        · subst huw
          rw [hw] at hrm
          simp [DeleteOutcome.removesTarget, hnfg] at hrm
        · exact List.mem_filter.mpr ⟨hmem, by simpa using huw⟩
      | false =>
        rw [runDeletePass_cons_status oracle rest pool errs w ow s hw hnfg]
        exact ih pool _ u o hmem hrm

theorem runDeletePass_errs_source (oracle : String → DeleteOutcome) :
    ∀ (ts : List (String × KObject)) (pool : Pool) (errs : List DeleteErr),
      (runDeletePass oracle ts pool errs).2 = errs
      ∨ ∃ u o, (u, o) ∈ ts ∧ (oracle u).isFailure = true := by
  intro ts
  induction ts with
  | nil => intro pool errs; exact Or.inl rfl
  | cons t rest ih =>
    obtain ⟨w, ow⟩ := t
    intro pool errs
    cases hw : oracle w with
    | goErr m =>
      exact Or.inr ⟨w, ow, List.mem_cons_self .., by simp [hw, DeleteOutcome.isFailure]⟩
    | accepted =>
      rw [runDeletePass_cons_accepted oracle rest pool errs w ow hw]
      rcases ih pool errs with h | ⟨u, o, hm, hf⟩
      · exact Or.inl h
      · exact Or.inr ⟨u, o, List.mem_cons_of_mem _ hm, hf⟩
    | statusErr s =>
      cases hnfg : isNotFoundOrGone s with
      | true =>
        rw [runDeletePass_cons_nfg oracle rest pool errs w ow s hw hnfg]
        rcases ih (Pool.removeUID pool w) errs with h | ⟨u, o, hm, hf⟩
        · exact Or.inl h
        · exact Or.inr ⟨u, o, List.mem_cons_of_mem _ hm, hf⟩
      | false =>
        exact Or.inr ⟨w, ow, List.mem_cons_self ..,
          by simp [hw, DeleteOutcome.isFailure, hnfg]⟩

theorem DeleteOutcome.isFailure_not_removes (d : DeleteOutcome)
    (h : d.isFailure = true) : d.removesTarget = false := by
  cases d with
  | goErr m => rfl
  | accepted => simp [DeleteOutcome.isFailure] at h
  | statusErr s =>
    simp only [DeleteOutcome.isFailure, Bool.not_eq_eq_eq_not, Bool.not_true] at h
    simp [DeleteOutcome.removesTarget, h]

/-- C6 (counterexample): `DeleteAll` does not retry failures on a
later pass — a pass that collects any error returns the chained error
immediately.  With one pooled object whose first deletion fails with a
transport error and whose second deletion would report NotFound,
`DeleteAll` returns the chained error after the first pass (the second
pass, which alone would have cleaned up and returned nil, never runs). -/
theorem deleteAll_no_retry_counterexample :
    deleteAll [("u1", ⟨"u1", 1, "n", "d", "K"⟩)]
        [⟨fun _ => .goErr "boom", []⟩, ⟨fun _ => .statusErr ⟨"NotFound"⟩, []⟩]
      = some (.chainedErr [.sentinel, .goErr "boom"],
          [("u1", ⟨"u1", 1, "n", "d", "K"⟩)])
    ∧ deleteAll [("u1", ⟨"u1", 1, "n", "d", "K"⟩)]
        [⟨fun _ => .statusErr ⟨"NotFound"⟩, []⟩]
      = some (.ok, []) := by
  refine ⟨by decide, by decide⟩

/-- C6 (amended): `DeleteAll` snapshots the pool each pass and deletes
each snapshotted object; a deletion whose status is NotFound or Gone
removes that UID directly from the pool; it returns nil once the pool
snapshot is empty; a pass that completes with any other failure ends
the loop immediately — the failures are not retried — failing with a
single chained error (the sentinel cause followed by the pass's
failures) while the pool is still non-empty; and only an error-free
pass is followed, after the ~1 s sleep (during which informer
callbacks may remove cascade-deleted entries), by another pass. -/
theorem deleteAll_cleanup_semantics :
    (∀ passes, deleteAll [] passes = some (.ok, []))
    ∧ (∀ (oracle : String → DeleteOutcome) (ts : List (String × KObject))
        (pool : Pool) (u : String) (o : KObject) (s : Status),
        (u, o) ∈ ts → oracle u = .statusErr s → isNotFoundOrGone s = true →
        Pool.lookupUID (runDeletePass oracle ts pool []).1 u = none)
    ∧ (∀ (pool : Pool) (p : DeletePass) (rest : List DeletePass),
        pool ≠ [] → (runDeletePass p.outcome pool pool []).2 ≠ [] →
        deleteAll pool (p :: rest)
          = some (.chainedErr (.sentinel :: (runDeletePass p.outcome pool pool []).2),
              (runDeletePass p.outcome pool pool []).1)
          ∧ (runDeletePass p.outcome pool pool []).1 ≠ [])
    ∧ (∀ (pool : Pool) (p : DeletePass) (rest : List DeletePass),
        pool ≠ [] → (runDeletePass p.outcome pool pool []).2 = [] →
        deleteAll pool (p :: rest)
          = deleteAll (p.cascadeRemovals.foldl Pool.removeUID
              (runDeletePass p.outcome pool pool []).1) rest) := by
  refine ⟨?_, ?_, ?_, ?_⟩
  · intro passes
    cases passes with
    | nil => rfl
    | cons p rest => rfl
  · intro oracle ts pool u o s hmem horacle hnfg
    rw [Pool.lookupUID_eq_none_iff]
    refine runDeletePass_removes oracle ts pool [] u o hmem ?_
    rw [horacle]
    simpa [DeleteOutcome.removesTarget] using hnfg
  · intro pool p rest hpool herrs
    have hempty : pool.isEmpty = false := by
      cases pool with
      | nil => exact absurd rfl hpool
      | cons a l => rfl
    have herrs2 : (runDeletePass p.outcome pool pool []).2.isEmpty = false := by
      cases hcase : (runDeletePass p.outcome pool pool []).2 with
      | nil => exact absurd hcase herrs
      | cons a l => rfl
    refine ⟨?_, ?_⟩
    · simp [deleteAll, hempty, herrs2]
    · rcases runDeletePass_errs_source p.outcome pool pool [] with h | ⟨u, o, hm, hf⟩
      · exact absurd h herrs
      · have hsurv := runDeletePass_entry_survives p.outcome pool pool [] u o hm
          (DeleteOutcome.isFailure_not_removes _ hf)
        intro hnil
        rw [hnil] at hsurv
        simp at hsurv
  · intro pool p rest hpool herrs
    have hempty : pool.isEmpty = false := by
      cases pool with
      | nil => exact absurd rfl hpool
      | cons a l => rfl
    simp [deleteAll, hempty, herrs]

/-- Witness for `deleteAll_cleanup_semantics`. -/
theorem deleteAll_cleanup_semantics_witness :
    deleteAll [] [⟨fun _ => .goErr "x", []⟩] = some (.ok, [])
    ∧ Pool.lookupUID
        (runDeletePass (fun _ => .statusErr ⟨"Gone"⟩)
          [("u1", ⟨"u1", 1, "n", "d", "K"⟩)]
          [("u1", ⟨"u1", 1, "n", "d", "K"⟩)] []).1 "u1" = none
    ∧ (deleteAll [("u1", ⟨"u1", 1, "n", "d", "K"⟩)] [⟨fun _ => .goErr "x", []⟩]
        = some (.chainedErr (.sentinel ::
            (runDeletePass (fun _ => DeleteOutcome.goErr "x")
              [("u1", ⟨"u1", 1, "n", "d", "K"⟩)]
              [("u1", ⟨"u1", 1, "n", "d", "K"⟩)] []).2),
            (runDeletePass (fun _ => DeleteOutcome.goErr "x")
              [("u1", ⟨"u1", 1, "n", "d", "K"⟩)]
              [("u1", ⟨"u1", 1, "n", "d", "K"⟩)] []).1)
        ∧ (runDeletePass (fun _ => DeleteOutcome.goErr "x")
              [("u1", ⟨"u1", 1, "n", "d", "K"⟩)]
              [("u1", ⟨"u1", 1, "n", "d", "K"⟩)] []).1 ≠ [])
    ∧ deleteAll [("u1", ⟨"u1", 1, "n", "d", "K"⟩)] [⟨fun _ => .accepted, ["u1"]⟩]
        = deleteAll ((["u1"] : List String).foldl Pool.removeUID
            (runDeletePass (fun _ => DeleteOutcome.accepted)
              [("u1", ⟨"u1", 1, "n", "d", "K"⟩)]
              [("u1", ⟨"u1", 1, "n", "d", "K"⟩)] []).1) [] := by
  obtain ⟨h1, h2, h3, h4⟩ := deleteAll_cleanup_semantics
  refine ⟨h1 _, ?_, ?_, ?_⟩
  · exact h2 (fun _ => .statusErr ⟨"Gone"⟩) _ _ "u1" ⟨"u1", 1, "n", "d", "K"⟩
      ⟨"Gone"⟩ (List.mem_singleton.mpr rfl) rfl rfl
  · exact h3 [("u1", ⟨"u1", 1, "n", "d", "K"⟩)] ⟨fun _ => .goErr "x", []⟩ []
      (by simp) (by decide)
  · exact h4 [("u1", ⟨"u1", 1, "n", "d", "K"⟩)] ⟨fun _ => .accepted, ["u1"]⟩ []
      (by simp) (by decide)

/-! ## YAML metadata injection and fixture renaming
(pkg/filter/filter.go, pkg/fixture/fixture.go)

The kyaml node tree is modelled by `YNode`; `pathGetE` is
`yaml.PathGetter` without creation (missing field → `none`, traversal
through a non-mapping → error), and `setAtPath` is the pipe
`PathGetter{Create: MappingNode, Path: p}` followed by
`FieldSetter{Name: k, StringValue: v}`. -/

/-- A YAML node: scalars, mappings and sequences carry an optional
anchor; an alias node refers to an anchor. -/
inductive YNode where
  | scalar (anchor : Option String) (value : String)
  | mapping (anchor : Option String) (fields : List (String × YNode))
  | seq (anchor : Option String) (items : List YNode)
  | aliasN (target : String)

/-- Field lookup in a mapping node's field list. -/
def lookupYField : List (String × YNode) → String → Option YNode
  | [], _ => none
  | (k, v) :: rest, key => if k = key then some v else lookupYField rest key

/-- Set a field's value, replacing an existing entry in place or
appending a new one. -/
def setYField : List (String × YNode) → String → YNode → List (String × YNode)
  | [], k, v => [(k, v)]
  | (k0, v0) :: rest, k, v =>
    if k0 = k then (k0, v) :: rest else (k0, v0) :: setYField rest k v

/-- `yaml.PathGetter{Path: path}` without creation: `none` when some
field along the path is missing, an error when traversal reaches a
non-mapping node. -/
def pathGetE : YNode → List String → Except Unit (Option YNode)
  | n, [] => .ok (some n)
  | n, k :: rest =>
    match n with
    | .mapping _ fields =>
      match lookupYField fields k with
      | some child => pathGetE child rest
      | none => .ok none
    | _ => .error ()

/-- The pipe `PathGetter{Create: MappingNode, Path: p}` then
`FieldSetter{Name: k, StringValue: v}`: create missing intermediate
mappings, then set the field to a string scalar. -/
def setAtPath : YNode → List String → String → String → Except Unit YNode
  | n, [], k, v =>
    match n with
    | .mapping a fields => .ok (.mapping a (setYField fields k (.scalar none v)))
    | _ => .error ()
  | n, p :: rest, k, v =>
    match n with
    | .mapping a fields =>
      match lookupYField fields p with
      | some child =>
        match setAtPath child rest k v with
        | .ok child2 => .ok (.mapping a (setYField fields p child2))
        | .error e => .error e
      | none =>
        match setAtPath (.mapping none []) rest k v with
        | .ok child2 => .ok (.mapping a (fields ++ [(p, child2)]))
        | .error e => .error e
    | _ => .error ()

/-- The value of a scalar node. -/
def scalarValue : YNode → Option String
  | .scalar _ v => some v
  | _ => none

/-- The string value found at a path, when the path resolves to a
scalar. -/
def getScalarAt (n : YNode) (path : List String) : Option String :=
  match pathGetE n path with
  | .ok (some m) => scalarValue m
  | _ => none

/-- Whether a path resolves to a node. -/
def pathExists (n : YNode) (path : List String) : Bool :=
  match pathGetE n path with
  | .ok (some _) => true
  | _ => false

/-- `filter.LabelManagedBy`. -/
def managedByKey : String := "app.kubernetes.io/managed-by"

/-- `filter.LabelRunID`. -/
def runIDKey : String := "integration-tester/run-id"

/-- The tail of `MetaInjectionFilter.Filter` from pkg/filter/filter.go:
set the run-id annotation under `metadata.annotations` (creating the
path) and then, only when `spec.template.spec.containers` resolves,
set the run-id annotation under `spec.template.metadata.annotations`
(creating the path). -/
def metaInjectStep3 (runID : String) (rn2 : YNode) : Except Unit YNode :=
  match setAtPath rn2 ["metadata", "annotations"] runIDKey runID with
  | .error e => .error e
  | .ok rn3 =>
    match pathGetE rn3 ["spec", "template", "spec", "containers"] with
    | .error e => .error e
    | .ok none => .ok rn3
    | .ok (some _) =>
      setAtPath rn3 ["spec", "template", "metadata", "annotations"] runIDKey runID

/-- The middle of `MetaInjectionFilter.Filter`: mirror the managed-by
label under `spec.template.metadata.labels` only when that path
already exists (probe errors are swallowed), then continue. -/
def metaInjectStep2 (runID managedBy : String) (rn1 : YNode) : Except Unit YNode :=
  match (match pathGetE rn1 ["spec", "template", "metadata", "labels"] with
         | .ok (some _) =>
           setAtPath rn1 ["spec", "template", "metadata", "labels"] managedByKey managedBy
         | _ => .ok rn1) with
  | .error e => .error e
  | .ok rn2 => metaInjectStep3 runID rn2

/-- `MetaInjectionFilter.Filter` from pkg/filter/filter.go: set the
managed-by label under `metadata.labels` (creating the path), then run
the template mirror and annotation stages. -/
def metaInjectionFilter (runID managedBy : String) (rn : YNode) : Except Unit YNode :=
  match setAtPath rn ["metadata", "labels"] managedByKey managedBy with
  | .error e => .error e
  | .ok rn1 => metaInjectStep2 runID managedBy rn1

theorem lookupYField_setYField_self (fields : List (String × YNode)) (k : String)
    (v : YNode) : lookupYField (setYField fields k v) k = some v := by
  induction fields with
  | nil => simp [setYField, lookupYField]
  | cons e rest ih =>
    obtain ⟨k0, v0⟩ := e
    by_cases hk : k0 = k
    · simp [setYField, lookupYField, hk]
    · simp [setYField, lookupYField, hk, ih]

theorem lookupYField_setYField_ne (fields : List (String × YNode)) (k b : String)
    (v : YNode) (h : k ≠ b) :
    lookupYField (setYField fields k v) b = lookupYField fields b := by
  induction fields with
  | nil => simp [setYField, lookupYField, h]
  | cons e rest ih =>
    obtain ⟨k0, v0⟩ := e
    by_cases hk : k0 = k
    · subst hk
      have : ¬ (k0 = b) := h
      simp [setYField, lookupYField, this]
    · simp only [setYField, hk, if_false, lookupYField]
      by_cases hb : k0 = b
      · simp [hb]
      · simp [hb, ih]

theorem lookupYField_append_left (fields tail : List (String × YNode))
    (b : String) (c : YNode) (h : lookupYField fields b = some c) :
    lookupYField (fields ++ tail) b = some c := by
  induction fields with
  | nil => simp [lookupYField] at h
  | cons e rest ih =>
    obtain ⟨k0, v0⟩ := e
    by_cases hb : k0 = b
    · simp only [lookupYField, hb, if_true] at h
      simp [lookupYField, hb, h]
    · simp only [lookupYField, hb, if_false] at h
      simp only [List.cons_append, lookupYField, hb, if_false]
      exact ih h

theorem lookupYField_append_singleton (fields : List (String × YNode))
    (a b : String) (c : YNode) (h : lookupYField fields b = none) :
    lookupYField (fields ++ [(a, c)]) b = if a = b then some c else none := by
  induction fields with
  | nil => simp [lookupYField]
  | cons e rest ih =>
    obtain ⟨k0, v0⟩ := e
    by_cases hb : k0 = b
    · simp [lookupYField, hb] at h
    · simp only [lookupYField, hb, if_false] at h
      simp only [List.cons_append, lookupYField, hb, if_false]
      exact ih h

theorem setAtPath_get_same (k v : String) :
    ∀ (p : List String) (n n2 : YNode), setAtPath n p k v = .ok n2 →
      pathGetE n2 (p ++ [k]) = .ok (some (.scalar none v)) := by
  intro p
  induction p with
  | nil =>
    intro n n2 h
    cases n with
    | mapping a fields =>
      simp only [setAtPath, Except.ok.injEq] at h
      subst h
      simp [pathGetE, lookupYField_setYField_self]
    | scalar a s => simp [setAtPath] at h
    | seq a xs => simp [setAtPath] at h
    | aliasN t => simp [setAtPath] at h
  | cons q rest ih =>
    intro n n2 h
    cases n with
    | mapping a fields =>
      cases hl : lookupYField fields q with
      | some child =>
        simp only [setAtPath, hl] at h
        cases hset : setAtPath child rest k v with
        | ok child2 =>
          rw [hset] at h
          simp only [Except.ok.injEq] at h
          subst h
          simp only [List.cons_append, pathGetE, lookupYField_setYField_self]
          exact ih child child2 hset
        | error e => rw [hset] at h; simp at h
      | none =>
        simp only [setAtPath, hl] at h
        cases hset : setAtPath (.mapping none []) rest k v with
        | ok child2 =>
          rw [hset] at h
          simp only [Except.ok.injEq] at h
          subst h
          have happ : lookupYField (fields ++ [(q, child2)]) q = some child2 := by
            rw [lookupYField_append_singleton fields q q child2 hl, if_pos rfl]
          simp only [List.cons_append, pathGetE, happ]
          exact ih _ child2 hset
        | error e => rw [hset] at h; simp at h
    | scalar a s => simp [setAtPath] at h
    | seq a xs => simp [setAtPath] at h
    | aliasN t => simp [setAtPath] at h

/-- Two paths that agree on a (possibly empty) common prefix and then
differ at the next component; a write along the first cannot be seen
by a read along the second. -/
inductive Diverges : List String → List String → Prop
  | head (a b : String) (p q : List String) : a ≠ b → Diverges (a :: p) (b :: q)
  | cons (a : String) (p q : List String) : Diverges p q → Diverges (a :: p) (a :: q)

theorem Diverges.right_cons {xs ys : List String} (h : Diverges xs ys) :
    ∃ c cs, ys = c :: cs := by
  cases h with
  | head a b p q hne => exact ⟨b, q, rfl⟩
  | cons a p q h2 => exact ⟨a, q, rfl⟩

theorem setAtPath_preserves_diverging (k v : String) :
    ∀ (p q : List String) (n n2 : YNode),
      Diverges (p ++ [k]) q → setAtPath n p k v = .ok n2 →
      pathGetE n2 q = pathGetE n q := by
  intro p
  induction p with
  | nil =>
    intro q n n2 hdiv h
    cases n with
    | mapping a fields =>
      simp only [setAtPath, Except.ok.injEq] at h
      subst h
      cases hdiv with
      | head a2 b p2 q2 hne =>
        simp only [pathGetE, lookupYField_setYField_ne fields k b _ hne]
      | cons a2 p2 q2 hdiv2 => cases hdiv2
    | scalar a s => simp [setAtPath] at h
    | seq a xs => simp [setAtPath] at h
    | aliasN t => simp [setAtPath] at h
  | cons w rest ih =>
    intro q n n2 hdiv h
    cases n with
    | mapping a fields =>
      cases hl : lookupYField fields w with
      | some child =>
        simp only [setAtPath, hl] at h
        cases hset : setAtPath child rest k v with
        | error e => rw [hset] at h; simp at h
        | ok child2 =>
          rw [hset] at h
          simp only [Except.ok.injEq] at h
          subst h
          cases hdiv with
          | head a2 b p2 q2 hne =>
            simp only [pathGetE, lookupYField_setYField_ne fields w b _ hne]
          | cons a2 p2 q2 hdiv2 =>
            simp only [pathGetE, lookupYField_setYField_self, hl]
            exact ih q2 child child2 hdiv2 hset
      | none =>
        simp only [setAtPath, hl] at h
        cases hset : setAtPath (.mapping none []) rest k v with
        | error e => rw [hset] at h; simp at h
        | ok child2 =>
          rw [hset] at h
          simp only [Except.ok.injEq] at h
          subst h
          cases hdiv with
          | head a2 b p2 q2 hne =>
            cases hlb : lookupYField fields b with
            | some c =>
              have happ : lookupYField (fields ++ [(w, child2)]) b = some c :=
                lookupYField_append_left fields [(w, child2)] b c hlb
              simp only [pathGetE, happ, hlb]
            | none =>
              have happ : lookupYField (fields ++ [(w, child2)]) b = none := by
                rw [lookupYField_append_singleton fields w b child2 hlb, if_neg hne]
              simp only [pathGetE, happ, hlb]
          | cons a2 p2 q2 hdiv2 =>
            have happ : lookupYField (fields ++ [(w, child2)]) w = some child2 := by
              rw [lookupYField_append_singleton fields w w child2 hl, if_pos rfl]
            simp only [pathGetE, happ, hl]
            obtain ⟨c, cs, hq2⟩ := hdiv2.right_cons
            have hempty : pathGetE (YNode.mapping none []) q2 = .ok none := by
              rw [hq2]
              simp [pathGetE, lookupYField]
            rw [ih q2 (.mapping none []) child2 hdiv2 hset, hempty]
    | scalar a s => simp [setAtPath] at h
    | seq a xs => simp [setAtPath] at h
    | aliasN t => simp [setAtPath] at h

theorem pathExists_some (n : YNode) (path : List String)
    (h : pathExists n path = true) : ∃ x, pathGetE n path = .ok (some x) := by
  unfold pathExists at h
  cases hpg : pathGetE n path with
  | error e => rw [hpg] at h; simp at h
  | ok o =>
    cases o with
    | none => rw [hpg] at h; simp at h
    | some x => exact ⟨x, rfl⟩

theorem metaInjectStep3_semantics (runID managedBy : String) (rn rn2 out : YNode)
    (h : metaInjectStep3 runID rn2 = .ok out)
    (hA : pathGetE rn2 ("metadata" :: "labels" :: [managedByKey])
        = .ok (some (.scalar none managedBy)))
    (hC : pathGetE rn2 ("spec" :: "template" :: "spec" :: "containers" :: [])
        = pathGetE rn ("spec" :: "template" :: "spec" :: "containers" :: []))
    (hD : pathExists rn ("spec" :: "template" :: "metadata" :: "labels" :: []) = true →
        pathGetE rn2 ("spec" :: "template" :: "metadata" :: "labels" :: [managedByKey])
          = .ok (some (.scalar none managedBy))) :
    getScalarAt out ["metadata", "labels", managedByKey] = some managedBy
    ∧ getScalarAt out ["metadata", "annotations", runIDKey] = some runID
    ∧ (pathExists rn ["spec", "template", "spec", "containers"] = true →
        getScalarAt out ["spec", "template", "metadata", "annotations", runIDKey]
          = some runID)
    ∧ (pathExists rn ["spec", "template", "metadata", "labels"] = true →
        getScalarAt out ["spec", "template", "metadata", "labels", managedByKey]
          = some managedBy) := by
  have divA3 : Diverges ("metadata" :: "annotations" :: [runIDKey])
      ("metadata" :: "labels" :: [managedByKey]) :=
    .cons _ _ _ (.head _ _ _ _ (by decide))
  have divA4 : Diverges ("spec" :: "template" :: "metadata" :: "annotations" :: [runIDKey])
      ("metadata" :: "labels" :: [managedByKey]) := .head _ _ _ _ (by decide)
  have divB4 : Diverges ("spec" :: "template" :: "metadata" :: "annotations" :: [runIDKey])
      ("metadata" :: "annotations" :: [runIDKey]) := .head _ _ _ _ (by decide)
  have divC3 : Diverges ("metadata" :: "annotations" :: [runIDKey])
      ("spec" :: "template" :: "spec" :: "containers" :: []) := .head _ _ _ _ (by decide)
  have divD3 : Diverges ("metadata" :: "annotations" :: [runIDKey])
      ("spec" :: "template" :: "metadata" :: "labels" :: [managedByKey]) :=
    .head _ _ _ _ (by decide)
  have divD4 : Diverges ("spec" :: "template" :: "metadata" :: "annotations" :: [runIDKey])
      ("spec" :: "template" :: "metadata" :: "labels" :: [managedByKey]) :=
    .cons _ _ _ (.cons _ _ _ (.cons _ _ _ (.head _ _ _ _ (by decide))))
  unfold metaInjectStep3 at h
  cases hm3 : setAtPath rn2 ["metadata", "annotations"] runIDKey runID with
  | error e => rw [hm3] at h; simp at h
  | ok rn3 =>
    rw [hm3] at h
    dsimp only at h
    have hA3 : pathGetE rn3 ("metadata" :: "labels" :: [managedByKey])
        = .ok (some (.scalar none managedBy)) := by
      rw [setAtPath_preserves_diverging runIDKey runID _ _ rn2 rn3 divA3 hm3]
      exact hA
    have hB3 : pathGetE rn3 ("metadata" :: "annotations" :: [runIDKey])
        = .ok (some (.scalar none runID)) :=
      setAtPath_get_same runIDKey runID _ rn2 rn3 hm3
    have hC3 : pathGetE rn3 ("spec" :: "template" :: "spec" :: "containers" :: [])
        = pathGetE rn ("spec" :: "template" :: "spec" :: "containers" :: []) := by
      rw [setAtPath_preserves_diverging runIDKey runID _ _ rn2 rn3 divC3 hm3]
      exact hC
    have hD3 : pathExists rn ("spec" :: "template" :: "metadata" :: "labels" :: []) = true →
        pathGetE rn3 ("spec" :: "template" :: "metadata" :: "labels" :: [managedByKey])
          = .ok (some (.scalar none managedBy)) := by
      intro hex
      rw [setAtPath_preserves_diverging runIDKey runID _ _ rn2 rn3 divD3 hm3]
      exact hD hex
    cases hp4 : pathGetE rn3 ["spec", "template", "spec", "containers"] with
    | error e => rw [hp4] at h; simp at h
    | ok o4 =>
      cases o4 with
      | none =>
        rw [hp4] at h
        dsimp only at h
        simp only [Except.ok.injEq] at h
        subst h
        refine ⟨by simp [getScalarAt, hA3, scalarValue],
          by simp [getScalarAt, hB3, scalarValue], ?_, ?_⟩
        · intro hex
          obtain ⟨x, hx⟩ := pathExists_some rn _ hex
          rw [← hC3] at hx
          rw [hx] at hp4
          simp at hp4
        · intro hex
          simp [getScalarAt, hD3 hex, scalarValue]
      | some x4 =>
        rw [hp4] at h
        dsimp only at h
        have hA4 : pathGetE out ("metadata" :: "labels" :: [managedByKey])
            = .ok (some (.scalar none managedBy)) := by
          rw [setAtPath_preserves_diverging runIDKey runID _ _ rn3 out divA4 h]
          exact hA3
        have hB4 : pathGetE out ("metadata" :: "annotations" :: [runIDKey])
            = .ok (some (.scalar none runID)) := by
          rw [setAtPath_preserves_diverging runIDKey runID _ _ rn3 out divB4 h]
          exact hB3
        have hT4 : pathGetE out
            ("spec" :: "template" :: "metadata" :: "annotations" :: [runIDKey])
            = .ok (some (.scalar none runID)) :=
          setAtPath_get_same runIDKey runID _ rn3 out h
        refine ⟨by simp [getScalarAt, hA4, scalarValue],
          by simp [getScalarAt, hB4, scalarValue],
          fun _ => by simp [getScalarAt, hT4, scalarValue], ?_⟩
        intro hex
        have hD4 : pathGetE out
            ("spec" :: "template" :: "metadata" :: "labels" :: [managedByKey])
            = .ok (some (.scalar none managedBy)) := by
          rw [setAtPath_preserves_diverging runIDKey runID _ _ rn3 out divD4 h]
          exact hD3 hex
        simp [getScalarAt, hD4, scalarValue]

/-- C7 (amended): when the metadata-injection filter succeeds, the
object's `metadata.labels` carries the managed-by label and its
`metadata.annotations` carries the run-id annotation; when the object
contains `spec.template.spec.containers`, the pod-template metadata
mirrors the run-id annotation; and the managed-by label is mirrored
into `spec.template.metadata.labels` exactly when that path already
existed in the input — not merely whenever a pod template with
containers is present. -/
theorem metaInjection_semantics (runID managedBy : String) (rn out : YNode)
    (h : metaInjectionFilter runID managedBy rn = .ok out) :
    getScalarAt out ["metadata", "labels", managedByKey] = some managedBy
    ∧ getScalarAt out ["metadata", "annotations", runIDKey] = some runID
    ∧ (pathExists rn ["spec", "template", "spec", "containers"] = true →
        getScalarAt out ["spec", "template", "metadata", "annotations", runIDKey]
          = some runID)
    ∧ (pathExists rn ["spec", "template", "metadata", "labels"] = true →
        getScalarAt out ["spec", "template", "metadata", "labels", managedByKey]
          = some managedBy) := by
  have divA2 : Diverges ("spec" :: "template" :: "metadata" :: "labels" :: [managedByKey])
      ("metadata" :: "labels" :: [managedByKey]) := .head _ _ _ _ (by decide)
  have divC1 : Diverges ("metadata" :: "labels" :: [managedByKey])
      ("spec" :: "template" :: "spec" :: "containers" :: []) := .head _ _ _ _ (by decide)
  have divC2 : Diverges ("spec" :: "template" :: "metadata" :: "labels" :: [managedByKey])
      ("spec" :: "template" :: "spec" :: "containers" :: []) :=
    .cons _ _ _ (.cons _ _ _ (.head _ _ _ _ (by decide)))
  have divD1 : Diverges ("metadata" :: "labels" :: [managedByKey])
      ("spec" :: "template" :: "metadata" :: "labels" :: []) := .head _ _ _ _ (by decide)
  unfold metaInjectionFilter at h
  cases hm1 : setAtPath rn ["metadata", "labels"] managedByKey managedBy with
  | error e => rw [hm1] at h; simp at h
  | ok rn1 =>
    rw [hm1] at h
    dsimp only at h
    have hA1 : pathGetE rn1 ("metadata" :: "labels" :: [managedByKey])
        = .ok (some (.scalar none managedBy)) :=
      setAtPath_get_same managedByKey managedBy _ rn rn1 hm1
    have hC1 : pathGetE rn1 ("spec" :: "template" :: "spec" :: "containers" :: [])
        = pathGetE rn ("spec" :: "template" :: "spec" :: "containers" :: []) :=
      setAtPath_preserves_diverging managedByKey managedBy _ _ rn rn1 divC1 hm1
    have hD1 : pathGetE rn1 ("spec" :: "template" :: "metadata" :: "labels" :: [])
        = pathGetE rn ("spec" :: "template" :: "metadata" :: "labels" :: []) :=
      setAtPath_preserves_diverging managedByKey managedBy _ _ rn rn1 divD1 hm1
    unfold metaInjectStep2 at h
    cases hp2 : pathGetE rn1 ["spec", "template", "metadata", "labels"] with
    | error e =>
      rw [hp2] at h
      dsimp only at h
      refine metaInjectStep3_semantics runID managedBy rn rn1 out h hA1 hC1 ?_
      intro hex
      obtain ⟨x, hx⟩ := pathExists_some rn _ hex
      rw [← hD1] at hx
      rw [hx] at hp2
      simp at hp2
    | ok o2 =>
      cases o2 with
      | none =>
        rw [hp2] at h
        dsimp only at h
        refine metaInjectStep3_semantics runID managedBy rn rn1 out h hA1 hC1 ?_
        intro hex
        obtain ⟨x, hx⟩ := pathExists_some rn _ hex
        rw [← hD1] at hx
        rw [hx] at hp2
        simp at hp2
      | some x2 =>
        rw [hp2] at h
        dsimp only at h
        cases hm2 : setAtPath rn1 ["spec", "template", "metadata", "labels"]
            managedByKey managedBy with
        | error e => rw [hm2] at h; simp at h
        | ok rn2 =>
          rw [hm2] at h
          dsimp only at h
          have hA2 : pathGetE rn2 ("metadata" :: "labels" :: [managedByKey])
              = .ok (some (.scalar none managedBy)) := by
            rw [setAtPath_preserves_diverging managedByKey managedBy _ _ rn1 rn2 divA2 hm2]
            exact hA1
          have hC2 : pathGetE rn2 ("spec" :: "template" :: "spec" :: "containers" :: [])
              = pathGetE rn ("spec" :: "template" :: "spec" :: "containers" :: []) := by
            rw [setAtPath_preserves_diverging managedByKey managedBy _ _ rn1 rn2 divC2 hm2]
            exact hC1
          have hD2 : pathGetE rn2
              ("spec" :: "template" :: "metadata" :: "labels" :: [managedByKey])
              = .ok (some (.scalar none managedBy)) :=
            setAtPath_get_same managedByKey managedBy _ rn1 rn2 hm2
          exact metaInjectStep3_semantics runID managedBy rn rn2 out h hA2 hC2
            (fun _ => hD2)

/-- A Deployment-shaped object with a pod template that has both
`metadata.labels` and `spec.containers`. -/
def c7In : YNode :=
  .mapping none [
    ("metadata", .mapping none [("name", .scalar none "d1")]),
    ("spec", .mapping none [
      ("template", .mapping none [
        ("metadata", .mapping none [("labels", .mapping none [])]),
        ("spec", .mapping none [("containers", .seq none [])])])])]

/-- The filter output for `c7In`. -/
def c7Out : YNode :=
  .mapping none [
    ("metadata", .mapping none [
      ("name", .scalar none "d1"),
      ("labels", .mapping none [(managedByKey, .scalar none "it")]),
      ("annotations", .mapping none [(runIDKey, .scalar none "rid")])]),
    ("spec", .mapping none [
      ("template", .mapping none [
        ("metadata", .mapping none [
          ("labels", .mapping none [(managedByKey, .scalar none "it")]),
          ("annotations", .mapping none [(runIDKey, .scalar none "rid")])]),
        ("spec", .mapping none [("containers", .seq none [])])])])]

/-- Witness for `metaInjection_semantics` at a concrete object. -/
theorem metaInjection_semantics_witness :
    getScalarAt c7Out ["metadata", "labels", managedByKey] = some "it"
    ∧ getScalarAt c7Out ["metadata", "annotations", runIDKey] = some "rid"
    ∧ getScalarAt c7Out ["spec", "template", "metadata", "annotations", runIDKey]
        = some "rid"
    ∧ getScalarAt c7Out ["spec", "template", "metadata", "labels", managedByKey]
        = some "it" := by
  obtain ⟨ha, hb, hc, hd⟩ := metaInjection_semantics "rid" "it" c7In c7Out rfl
  exact ⟨ha, hb, hc rfl, hd rfl⟩

/-- An object that has `spec.template.spec.containers` but no
`spec.template.metadata` at all. -/
def c7CxIn : YNode :=
  .mapping none [
    ("metadata", .mapping none [("name", .scalar none "d1")]),
    ("spec", .mapping none [
      ("template", .mapping none [
        ("spec", .mapping none [("containers", .seq none [])])])])]

/-- The filter output for `c7CxIn`. -/
def c7CxOut : YNode :=
  .mapping none [
    ("metadata", .mapping none [
      ("name", .scalar none "d1"),
      ("labels", .mapping none [(managedByKey, .scalar none "it")]),
      ("annotations", .mapping none [(runIDKey, .scalar none "rid")])]),
    ("spec", .mapping none [
      ("template", .mapping none [
        ("spec", .mapping none [("containers", .seq none [])]),
        ("metadata", .mapping none [
          ("annotations", .mapping none [(runIDKey, .scalar none "rid")])])])])]

/-- C7 (counterexample): on an object that contains
`spec.template.spec.containers` but whose template has no
`metadata.labels`, hydration succeeds and mirrors the run-id
annotation into the pod template, but does not mirror the managed-by
label there — the claim requires the pod-template metadata to mirror
both. -/
theorem metaInjection_missing_template_label_counterexample :
    metaInjectionFilter "rid" "it" c7CxIn = .ok c7CxOut
    ∧ pathExists c7CxIn ["spec", "template", "spec", "containers"] = true
    ∧ getScalarAt c7CxOut ["spec", "template", "metadata", "annotations", runIDKey]
        = some "rid"
    ∧ getScalarAt c7CxOut ["spec", "template", "metadata", "labels", managedByKey]
        = none := by
  exact ⟨rfl, rfl, rfl, rfl⟩

/-! ## Fixture renaming (`Rename.Filter`, `Fixture.Rename`)

`Rename.Filter` updates `metadata.name` and `metadata.namespace`.
When the target path resolves to an existing scalar node it calls
`SetString(r.Name)` on it in place (preserving the node's anchor);
alias nodes are left untouched; a missing path is created with the
intended value via `PathGetter{Create}`/`FieldSetter`. -/

/-- `SetString` on the node found at a path: update the scalar value
in place, keeping its anchor.  Only called when the found node is a
scalar. -/
def setScalarAt : YNode → List String → String → YNode
  | n, [], v =>
    match n with
    | .scalar a _ => .scalar a v
    | other => other
  | n, p :: rest, v =>
    match n with
    | .mapping a fields =>
      match lookupYField fields p with
      | some child => .mapping a (setYField fields p (setScalarAt child rest v))
      | none => .mapping a fields
    | other => other

/-- `setNode` from `Rename.Filter` (pkg/filter/filter.go).  Note: on
an existing scalar node the source sets `r.Name` — not the `value`
parameter — so `rName` is what an existing scalar receives. -/
def setNode (rn : YNode) (path : List String) (value rName : String) :
    Except Unit YNode :=
  match pathGetE rn path with
  | .error e => .error e
  | .ok (some n) =>
    match n with
    | .scalar _ _ => .ok (setScalarAt rn path rName)
    | _ => .ok rn
  | .ok none => setAtPath rn path.dropLast (path.getLastD "") value

/-- `Rename.Filter`: apply `setNode` to `metadata.name` with the new
name, then to `metadata.namespace` with the new namespace. -/
def renameFilter (rName rNamespace : String) (rn : YNode) : Except Unit YNode :=
  match setNode rn ["metadata", "name"] rName rName with
  | .error e => .error e
  | .ok rn1 => setNode rn1 ["metadata", "namespace"] rNamespace rName

/-- Split a character list at the first slash, as
`strings.SplitN(s, "/", 2)` does. -/
def splitFirstSlash : List Char → Option (List Char × List Char)
  | [] => none
  | c :: rest =>
    if c = '/' then some ([], rest)
    else (splitFirstSlash rest).map fun p => (c :: p.1, p.2)

/-- `utils.SplitObjectName`: `name` defaults the namespace to
`default`; `namespace/name` splits at the first slash. -/
def splitObjectName (full : String) : String × String :=
  match splitFirstSlash full.data with
  | none => ("default", full)
  | some p => (⟨p.1⟩, ⟨p.2⟩)

/-- `Fixture.Rename`: split the rename target and run the rename
filter over the fixture's node tree. -/
def fixtureRename (f : YNode) (newName : String) : Except Unit YNode :=
  let parts := splitObjectName newName
  renameFilter parts.2 parts.1 f

/-- A fixture that already carries an explicit `metadata.namespace`. -/
def c8Fixture : YNode :=
  .mapping none [
    ("apiVersion", .scalar none "apps/v1"),
    ("kind", .scalar none "Deployment"),
    ("metadata", .mapping none [
      ("name", .scalar none "httpbin"),
      ("namespace", .scalar none "old-ns")])]

/-- C8 (code evaluated at the failing input): renaming a fixture that
has an explicit `metadata.namespace` to `ns2/httpbin2` sets the
namespace to the new *name* — `setNode` writes `r.Name` instead of its
`value` parameter when the node already exists as a scalar — while the
claim (and `Fixture.Rename`'s own doc comment) require the namespace
to become `ns2`.  Splitting of the rename target itself behaves as
claimed, and a fixture without an explicit namespace gets the correct
value through the creation branch. -/
theorem rename_existing_namespace_gets_name :
    splitObjectName "ns2/httpbin2" = ("ns2", "httpbin2")
    ∧ splitObjectName "httpbin2" = ("default", "httpbin2")
    ∧ (fixtureRename c8Fixture "ns2/httpbin2").toOption.map
        (fun out => getScalarAt out ["metadata", "name"]) = some (some "httpbin2")
    ∧ (fixtureRename c8Fixture "ns2/httpbin2").toOption.map
        (fun out => getScalarAt out ["metadata", "namespace"])
        = some (some "httpbin2")
    ∧ (fixtureRename (.mapping none [
          ("metadata", .mapping none [("name", .scalar none "httpbin")])])
          "ns2/httpbin2").toOption.map
        (fun out => getScalarAt out ["metadata", "namespace"]) = some (some "ns2") := by
  exact ⟨rfl, rfl, rfl, rfl, rfl⟩

end IntegrationTester
